import Mathlib

/-! A shallow embedding of pastequo/libs.golang.utils.

Three packages are embedded.

* `mongoutil` (src/mongoutil/client.go): the `Client` struct, the goroutine started by
  `NewClient`, `GetCollection` and `Close`.  Goroutines are interleaved through a
  deterministic labelled step function: every label is one atomic piece of the source, and
  the scheduler, the clock and the Go runtime's choice in a `select` with several ready
  cases are carried by the label.
* `prometrics` (src/prometrics/proserver.go): the package variables and `Shutdown`.
* `logutil` (src/logutil/logger.go): `getMethodName`.

Conventions.  A Go pointer or error that may be nil is an `Option`.  A channel that is only
ever closed is the count of `close` operations made on it.  `time.Duration` is an `Int`
wrapped to 64 bits at every multiplication.  Time is a `Nat` of nanoseconds.  A function
that can block returns `none` when it cannot proceed at the given instant.
-/

namespace Go

/-- Errors the embedded code creates or passes on. -/
inductive GoError where
  /-- The sentinel `ErrClientNotConnected` (client.go, line 28). -/
  | clientNotConnected
  /-- The value `errors.New("mongoURL can't be empty")` (client.go, line 133). -/
  | emptyURL
  /-- The value `errors.New("nil mongoDB client")` (client.go, line 151). -/
  | nilClient
  /-- The value `fmt.Errorf("failed to get %v database", dbName)` (client.go, line 89). -/
  | failedDatabase (dbName : String)
  /-- The value `fmt.Errorf("nil collection %v", collectionName)` (client.go, line 94). -/
  | nilCollection (collectionName : String)
  /-- The sentinel `ErrNotStarted` (proserver.go, line 28). -/
  | notStarted
  /-- The value `context.Canceled`. -/
  | canceled
  /-- The value `context.DeadlineExceeded`. -/
  | deadlineExceeded
  /-- An error made by a library the repository calls (mongo driver, net/http). -/
  | external (code : Nat)
  deriving DecidableEq, Repr

/-- A `context.Context`, as far as the code looks at it: the instant it ends and the error
it then carries, or `none` for a context that never ends (`context.Background()`). -/
structure Context where
  ends : Option (Nat × GoError)
  deriving DecidableEq, Repr

/-- The context `context.Background()`: never cancelled, no deadline. -/
def Context.background : Context := ⟨none⟩

/-- Whether a receive from `ctx.Done()` can proceed at instant `now`. -/
def Context.done (ctx : Context) (now : Nat) : Bool :=
  match ctx.ends with
  | none => false
  | some (t, _) => decide (t ≤ now)

/-- The value of `ctx.Err()` at instant `now`: nil until the context ends. -/
def Context.Err (ctx : Context) (now : Nat) : Option GoError :=
  match ctx.ends with
  | none => none
  | some (t, e) => if t ≤ now then some e else none

/-- A channel on which nothing is ever sent: the number of `close` operations so far. -/
structure Chan where
  closes : Nat
  deriving DecidableEq, Repr

/-- The result of `make(chan bool, 1)`. -/
def Chan.make : Chan := ⟨0⟩

/-- The operation `close(ch)`. -/
def Chan.close (ch : Chan) : Chan := ⟨ch.closes + 1⟩

/-- Whether a receive from the channel can proceed: it has been closed. -/
def Chan.closed (ch : Chan) : Bool := decide (0 < ch.closes)

/-- A case of a two-case `select`, in source order. -/
inductive Case where
  | first
  | second
  deriving DecidableEq, Repr

/-- A `select` with two receive cases and no default: given which cases can proceed, and the
case the runtime draws when both can, the case that runs; `none` when the statement blocks. -/
def select2 (ready1 ready2 : Bool) (pick : Case) : Option Case :=
  match ready1, ready2 with
  | true, true => some pick
  | true, false => some Case.first
  | false, true => some Case.second
  | false, false => none

/-- Conversion of an `int64` computation to its 64-bit two's complement result. -/
def wrapInt64 (x : Int) : Int := (x + 2 ^ 63) % 2 ^ 64 - 2 ^ 63

/-- The constant `time.Second`, in nanoseconds. -/
def Second : Int := 1000000000

/-- The constant `time.Minute`, in nanoseconds. -/
def Minute : Int := 60 * Second

end Go

namespace mongoutil

open Go

/-- A `*mongo.Client` that is not nil: the identity of a session. -/
abbrev Session := Nat

/-- A `*mongo.Database` that is not nil. -/
abbrev Database := Nat

/-- A `*mongo.Collection` that is not nil. -/
abbrev Collection := Nat

/-- The struct `Client` (client.go, lines 17-25).  `stopOnce` is the `done` flag of the
`sync.Once`. -/
structure Client where
  mongoClient : Option Session
  initDone : Chan
  stopInit : Chan
  stopOnce : Bool
  stopError : Option GoError
  deriving DecidableEq, Repr

/-- What the manager is given and what it calls into: the arguments of `NewClient` that the
code inspects, and the mongo driver. -/
structure Config where
  /-- The argument `mongoURL` of `NewClient`. -/
  mongoURL : String
  /-- The result `(client, err)` of `mongo.Connect` in the `n`-th call of `connect`
  (counted from 0). -/
  mongoConnect : Nat → Option Session × Option GoError
  /-- The result of `(*mongo.Client).Disconnect(ctx)`. -/
  Disconnect : Session → Context → Option GoError
  /-- The result of `(*mongo.Client).Database(dbName)`. -/
  clientDatabase : Session → String → Option Database
  /-- The result of `(*mongo.Database).Collection(collectionName)`. -/
  databaseCollection : Database → String → Option Collection

/-- Where the goroutine started by `NewClient` stands. -/
inductive LoopPc where
  /-- At line 46: about to return from `ret.connect`. -/
  | connecting
  /-- At line 54: in the `select` that follows a failed attempt. -/
  | waiting
  /-- At line 67: out of the loop, `initDone` not closed yet. -/
  | leaving
  /-- After line 68: the goroutine has returned. -/
  | finished
  deriving DecidableEq, Repr

/-- The state of one manager: the struct, the locals of its goroutine, the locals of the
function passed to `stopOnce.Do` while it runs, the clock, and the history the claims count. -/
structure Sys where
  /-- The struct `*ret`. -/
  c : Client
  /-- Program counter of the goroutine. -/
  pc : LoopPc
  /-- The local `waitingTime` (a `time.Duration`). -/
  waitingTime : Int
  /-- The instant the `select` of line 54 was entered, when `time.After` was evaluated. -/
  selectAt : Nat
  /-- The `ctx` of the `Close` call whose function runs inside `stopOnce.Do`, if any. -/
  closing : Option Context
  /-- The clock, in nanoseconds. -/
  now : Nat
  /-- History: the number of calls of `ret.connect` made so far. -/
  attempts : Nat
  /-- History: the calls of `Disconnect` made so far, receiver and argument. -/
  disconnects : List (Option Session × Context)
  deriving DecidableEq, Repr

/-- The local `maxTime` of `NewClient` (line 41). -/
def maxTime : Int := wrapInt64 (5 * Minute)

/-- The state in which `NewClient` returns (lines 35-43 and 71): the goroutine is started
and has not yet returned from its first `connect`. -/
def NewClient : Sys :=
  { c := { mongoClient := none, initDone := Chan.make, stopInit := Chan.make,
           stopOnce := false, stopError := none }
    pc := LoopPc.connecting
    waitingTime := wrapInt64 (3 * Second)
    selectAt := 0
    closing := none
    now := 0
    attempts := 0
    disconnects := [] }

/-- The method `connect` (lines 130-157), in its `n`-th call: the struct it leaves and the
error it returns. -/
def connect (cfg : Config) (n : Nat) (c : Client) : Client × Option GoError :=
  if cfg.mongoURL = "" then (c, some GoError.emptyURL)
  else
    match cfg.mongoConnect n with
    | (_, some err) => (c, some err)
    | (none, none) => (c, some GoError.nilClient)
    | (some mongoClient, none) => ({ c with mongoClient := some mongoClient }, none)

/-- Lines 61-64: the update of `waitingTime` after the timer case. -/
def nextWaitingTime (waitingTime : Int) : Int :=
  let doubled := wrapInt64 (waitingTime * 2)
  if doubled > maxTime then maxTime else doubled

/-- Whether the case `<-time.After(waitingTime)` of line 58 can proceed: the duration has
elapsed since the `select` was entered. -/
def timerReady (s : Sys) : Bool :=
  decide (s.selectAt + s.waitingTime.toNat ≤ s.now)

/-- The method `GetCollection` (lines 75-98), run at the instant its `select` can proceed.
`none`: the `select` blocks at this instant. -/
def GetCollection (cfg : Config) (s : Sys) (ctx : Context) (dbName collectionName : String)
    (pick : Case) : Option (Sys × (Option Collection × Option GoError)) :=
  match select2 s.c.initDone.closed (ctx.done s.now) pick with
  | none => none
  | some Case.second => some (s, (none, ctx.Err s.now))
  | some Case.first =>
    match s.c.mongoClient with
    | none => some (s, (none, some GoError.clientNotConnected))
    | some mongoClient =>
      match cfg.clientDatabase mongoClient dbName with
      | none => some (s, (none, some (GoError.failedDatabase dbName)))
      | some db =>
        match cfg.databaseCollection db collectionName with
        | none => some (s, (none, some (GoError.nilCollection collectionName)))
        | some collection => some (s, (some collection, none))

/-- The labels of the step function. -/
inductive Event where
  /-- The clock advances by `d` nanoseconds. -/
  | tick (d : Nat)
  /-- Goroutine, lines 46-52: `ret.connect` returns. -/
  | loopConnect
  /-- Goroutine, lines 54-64: the `select` proceeds; `pick` is the runtime's draw. -/
  | loopSelect (pick : Case)
  /-- Goroutine, lines 67-68: `close(ret.initDone)`. -/
  | loopCloseInitDone
  /-- A whole call of `GetCollection`, at the instant its `select` proceeds. -/
  | getCollection (ctx : Context) (dbName collectionName : String) (pick : Case)
  /-- A call of `Close` that enters the function of `stopOnce.Do`: lines 103-108. -/
  | closeEnter (ctx : Context)
  /-- That call, lines 109-127: its `select` proceeds, the function ends, `Close` returns. -/
  | closeResolve (pick : Case)
  /-- A call of `Close` that finds `stopOnce` done: line 127 alone. -/
  | closeReplay (ctx : Context)
  deriving DecidableEq, Repr

/-- What a step hands back to a caller. -/
inductive Output where
  /-- Nothing: a step of the goroutine or of the clock, or a call still in progress. -/
  | silent
  /-- The pair returned by `GetCollection`. -/
  | collection (r : Option Collection × Option GoError)
  /-- The error returned by `Close`. -/
  | closeRet (err : Option GoError)
  deriving DecidableEq, Repr

/-- One step of the manager.  `none`: the label is not enabled in this state (the goroutine
is elsewhere, a `select` blocks, `stopOnce` holds the caller back). -/
def step (cfg : Config) (s : Sys) : Event → Option (Sys × Output)
  | Event.tick d => some ({ s with now := s.now + d }, Output.silent)
  | Event.loopConnect =>
    if s.pc = LoopPc.connecting then
      match connect cfg s.attempts s.c with
      | (c, none) =>
        some ({ s with c := c, attempts := s.attempts + 1, pc := LoopPc.leaving },
          Output.silent)
      | (c, some _) =>
        some ({ s with c := c, attempts := s.attempts + 1, pc := LoopPc.waiting,
                       selectAt := s.now }, Output.silent)
    else none
  | Event.loopSelect pick =>
    if s.pc = LoopPc.waiting then
      match select2 s.c.stopInit.closed (timerReady s) pick with
      | none => none
      | some Case.first => some ({ s with pc := LoopPc.leaving }, Output.silent)
      | some Case.second =>
        some ({ s with pc := LoopPc.connecting,
                       waitingTime := nextWaitingTime s.waitingTime }, Output.silent)
    else none
  | Event.loopCloseInitDone =>
    if s.pc = LoopPc.leaving then
      some ({ s with c := { s.c with initDone := s.c.initDone.close },
                     pc := LoopPc.finished }, Output.silent)
    else none
  | Event.getCollection ctx dbName collectionName pick =>
    match GetCollection cfg s ctx dbName collectionName pick with
    | none => none
    | some (s1, r) => some (s1, Output.collection r)
  | Event.closeEnter ctx =>
    if s.c.stopOnce = false ∧ s.closing = none then
      some ({ s with c := { s.c with stopInit := s.c.stopInit.close },
                     closing := some ctx }, Output.silent)
    else none
  | Event.closeResolve pick =>
    match s.closing with
    | none => none
    | some ctx =>
      match select2 s.c.initDone.closed (ctx.done s.now) pick with
      | none => none
      | some Case.second =>
        some ({ s with c := { s.c with stopError := ctx.Err s.now, stopOnce := true },
                       closing := none }, Output.closeRet (ctx.Err s.now))
      | some Case.first =>
        match s.c.mongoClient with
        | none =>
          some ({ s with c := { s.c with stopError := none, stopOnce := true },
                         closing := none }, Output.closeRet none)
        | some mongoClient =>
          some ({ s with c := { s.c with stopError := cfg.Disconnect mongoClient ctx,
                                         stopOnce := true },
                         closing := none,
                         disconnects := s.disconnects ++ [(s.c.mongoClient, ctx)] },
            Output.closeRet (cfg.Disconnect mongoClient ctx))
  | Event.closeReplay _ =>
    if s.c.stopOnce = true then some (s, Output.closeRet s.c.stopError) else none

/-- A sequence of steps: the state reached and the outputs, in order. -/
def run (cfg : Config) (s : Sys) : List Event → Option (Sys × List Output)
  | [] => some (s, [])
  | e :: es =>
    match step cfg s e with
    | none => none
    | some (s1, o) =>
      match run cfg s1 es with
      | none => none
      | some (s2, os) => some (s2, o :: os)

/-- The states a manager can be in: those some sequence of steps reaches from `NewClient`. -/
def Reachable (cfg : Config) (s : Sys) : Prop :=
  ∃ es os, run cfg NewClient es = some (s, os)

/-- What goes on around a call of `Close` while it waits in its `select`: the steps of the
goroutine, of the clock and of `GetCollection` callers, and the runtime's draw. -/
structure CloseEnv where
  during : List Event
  pick : Case

/-- The labels that are not a step of a `Close` call. -/
def Event.isBackground : Event → Bool
  | Event.tick _ => true
  | Event.loopConnect => true
  | Event.loopSelect _ => true
  | Event.loopCloseInitDone => true
  | Event.getCollection _ _ _ _ => true
  | Event.closeEnter _ => false
  | Event.closeResolve _ => false
  | Event.closeReplay _ => false

/-- The method `Close` (lines 101-128) as one call, from entry to return: the state it
leaves and the error it returns.  When `stopOnce` is done the function of `Do` is skipped;
otherwise the call enters it, the environment moves while the call waits, and the `select`
proceeds.  `none`: the call does not return (its `select` blocks after `env.during`, or
another call is inside `stopOnce.Do`), or `env.during` is not a run of the manager. -/
def Close (cfg : Config) (s : Sys) (ctx : Context) (env : CloseEnv) :
    Option (Sys × Option GoError) :=
  if s.c.stopOnce = true then some (s, s.c.stopError)
  else if env.during.all Event.isBackground = true then
    match run cfg s (Event.closeEnter ctx :: (env.during ++ [Event.closeResolve env.pick])) with
    | none => none
    | some (s1, _) => some (s1, s1.c.stopError)
  else none

/-- The outcome of the `n`-th call of `connect`, whatever the struct: its error. -/
def connectError (cfg : Config) (n : Nat) : Option GoError :=
  (connect cfg n NewClient.c).2

/-- The session the `n`-th call of `connect` stores, if it stores one. -/
def connectSession (cfg : Config) (n : Nat) : Option Session :=
  (connect cfg n NewClient.c).1.mongoClient

/-- The schedule of the goroutine alone through `n` failed attempts, starting with the
local `waitingTime` at `w`: each attempt returns, the clock runs for the whole wait, the
timer case of the `select` proceeds. -/
def retrySchedule : Nat → Int → List Event
  | 0, _ => []
  | n + 1, w =>
    Event.loopConnect :: Event.tick w.toNat :: Event.loopSelect Case.second ::
      retrySchedule n (nextWaitingTime w)

/-- The schedule of the goroutine alone when the attempt of index `n` is the first to
succeed: `n` failed attempts, the successful one, `close(ret.initDone)`. -/
def successSchedule (n : Nat) : List Event :=
  retrySchedule n NewClient.waitingTime ++ [Event.loopConnect, Event.loopCloseInitDone]

/-- An endpoint on which every attempt fails: the URL is empty, so that `connect` returns
at line 133. -/
def downConfig : Config :=
  { mongoURL := ""
    mongoConnect := fun _ => (none, none)
    Disconnect := fun _ _ => none
    clientDatabase := fun _ _ => some 0
    databaseCollection := fun _ _ => some 0 }

/-- An endpoint on which the driver fails twice and then hands out session 7, whose
`Disconnect` returns an error. -/
def flakyConfig : Config :=
  { mongoURL := "localhost:27017"
    mongoConnect := fun n => if n < 2 then (none, some (GoError.external 1)) else (some 7, none)
    Disconnect := fun _ _ => some (GoError.external 2)
    clientDatabase := fun _ _ => some 0
    databaseCollection := fun _ _ => some 0 }

/-- A context made by `context.WithTimeout(parent, time.Second)` at instant `t`, the parent
never ending. -/
def timeoutOneSecond (t : Nat) : Context := ⟨some (t + 1000000000, GoError.deadlineExceeded)⟩

/-- The state on `downConfig` once the first attempt has failed: the goroutine waits in its
`select`, nothing else has happened. -/
def afterFirstFailure : Sys :=
  { NewClient with pc := LoopPc.waiting, attempts := 1 }

/-- The state on `downConfig` once a `Close` called in `afterFirstFailure` has returned:
the goroutine took the `stopInit` case and ended without a session. -/
def abortedState : Sys :=
  { c := { mongoClient := none, initDone := ⟨1⟩, stopInit := ⟨1⟩, stopOnce := true,
           stopError := none }
    pc := LoopPc.finished
    waitingTime := 3000000000
    selectAt := 0
    closing := none
    now := 1000
    attempts := 1
    disconnects := [] }

/-- The state on `flakyConfig` at the end of `successSchedule 2`: two failures, waits of 3
and 6 seconds, then session 7. -/
def readyState : Sys :=
  { c := { mongoClient := some 7, initDone := ⟨1⟩, stopInit := ⟨0⟩, stopOnce := false,
           stopError := none }
    pc := LoopPc.finished
    waitingTime := 12000000000
    selectAt := 3000000000
    closing := none
    now := 9000000000
    attempts := 3
    disconnects := [] }

/-- The state on `flakyConfig` once a `Close` called in `readyState` with
`context.Background()` has returned. -/
def closedState : Sys :=
  { readyState with
    c := { readyState.c with stopInit := ⟨1⟩, stopOnce := true,
                             stopError := some (GoError.external 2) }
    disconnects := [(some 7, Context.background)] }

/-- The state on `downConfig` once the third attempt has failed. -/
def afterThirdFailure : Sys :=
  { NewClient with pc := LoopPc.waiting, attempts := 3, waitingTime := 12000000000,
                   selectAt := 9000000000, now := 9000000000 }

/-- A context that was cancelled at instant 0. -/
def cancelledContext : Context := ⟨some (0, GoError.canceled)⟩

/-- A context whose deadline is the instant 10 s: after `initDone` is closed in
`readyState` (9 s). -/
def expiredContext : Context := ⟨some (10000000000, GoError.deadlineExceeded)⟩

/-- The state `readyState` two seconds later, at 11 s: the deadline of `expiredContext`
has passed. -/
def lateReadyState : Sys :=
  { readyState with now := 11000000000 }

/-- The state on `flakyConfig` once a first `Close` called in `lateReadyState` with
`expiredContext` has returned through the `ctx.Done()` case: the session is still there,
no `Disconnect` was called, `stopOnce` is done. -/
def skippedState : Sys :=
  { lateReadyState with
    c := { lateReadyState.c with stopInit := ⟨1⟩, stopOnce := true,
                                 stopError := some GoError.deadlineExceeded } }

/-- A context made in `readyState` that ends one nanosecond later. -/
def shortContext : Context := ⟨some (9000000001, GoError.canceled)⟩

/-- The closed form of the wait after `k` failed attempts, in nanoseconds. -/
def backoffNanos (k : Nat) : Int := min (3 * 2 ^ (k - 1)) 300 * Second

/-- What holds of the struct and of the goroutine in every state. -/
structure LoopInv (cfg : Config) (s : Sys) : Prop where
  pending : s.pc = LoopPc.connecting ∨ s.pc = LoopPc.waiting → s.c.mongoClient = none
  failed : s.c.mongoClient = none → ∀ i, i < s.attempts → connectError cfg i ≠ none
  stored : ∀ m, s.c.mongoClient = some m → 1 ≤ s.attempts ∧
    (∀ i, i < s.attempts - 1 → connectError cfg i ≠ none) ∧
    connectError cfg (s.attempts - 1) = none ∧ connectSession cfg (s.attempts - 1) = some m
  unfired : s.pc ≠ LoopPc.finished → s.c.initDone.closes = 0
  fired : s.pc = LoopPc.finished → s.c.initDone.closes = 1
  tried : s.pc ≠ LoopPc.connecting → 1 ≤ s.attempts
  aborted : s.pc = LoopPc.leaving ∨ s.pc = LoopPc.finished → s.c.mongoClient = none →
    0 < s.c.stopInit.closes
  waitConnecting : s.pc = LoopPc.connecting → s.waitingTime = backoffNanos (s.attempts + 1)
  waitWaiting : s.pc = LoopPc.waiting → s.waitingTime = backoffNanos s.attempts

/-- What holds of the shutdown side of the struct in every state. -/
structure CloseInv (s : Sys) : Prop where
  stopCount : s.c.stopInit.closes = if s.c.stopOnce = true ∨ s.closing ≠ none then 1 else 0
  exclusive : s.c.stopOnce = true → s.closing = none
  fresh : s.c.stopOnce = false → s.disconnects = [] ∧ s.c.stopError = none
  atMostOne : s.disconnects.length ≤ 1
  receiver : ∀ call, call ∈ s.disconnects → call.1 ≠ none

end mongoutil

namespace prometrics

open Go

/-- A `*http.Server` that is not nil. -/
abbrev Server := Nat

/-- The package variables of proserver.go (lines 17-25), with the count of calls of
`srv.Shutdown` as history.  `started` is nil until `StartServer` makes the channel. -/
structure Vars where
  startOnce : Bool
  started : Option Chan
  stopOnce : Bool
  stopError : Option GoError
  srv : Option Server
  srvShutdowns : Nat
  deriving DecidableEq, Repr

/-- The package variables when the program starts: Go zero values. -/
def Vars.zero : Vars :=
  { startOnce := false, started := none, stopOnce := false, stopError := none,
    srv := none, srvShutdowns := 0 }

/-- How a call ends. -/
inductive Outcome (α : Type) where
  /-- The call cannot proceed at this instant. -/
  | blocks
  /-- The call panics (nil pointer dereference). -/
  | panics
  /-- The call returns. -/
  | returns (a : α)
  deriving DecidableEq, Repr

/-- The function of `startOnce.Do` in `StartServer` (lines 33-46), up to the `go`
statement: `newSrv` is the server it allocates. -/
def StartServer (newSrv : Server) (v : Vars) : Vars :=
  if v.startOnce = true then v
  else { v with startOnce := true, started := some Chan.make, srv := some newSrv }

/-- The goroutine of `StartServer`, line 48: `close(started)`. -/
def serveGoroutine (v : Vars) : Outcome Vars :=
  match v.started with
  | none => Outcome.panics
  | some ch => Outcome.returns { v with started := some ch.close }

/-- Whether a receive from a channel variable can proceed: never on a nil channel. -/
def recvReady : Option Chan → Bool
  | none => false
  | some ch => ch.closed

/-- The function `Shutdown` (lines 58-77), run at instant `now`; `srvShutdown` is the
result of `(*http.Server).Shutdown(ctx)` and `pick` the runtime's draw in the `select`. -/
def Shutdown (srvShutdown : Server → Context → Option GoError) (v : Vars) (ctx : Context)
    (now : Nat) (pick : Case) : Outcome (Vars × Option GoError) :=
  match select2 (recvReady v.started) (ctx.done now) pick with
  | none => Outcome.blocks
  | some Case.second => Outcome.returns (v, some GoError.notStarted)
  | some Case.first =>
    if v.stopOnce = true then Outcome.returns (v, v.stopError)
    else
      match v.srv with
      | none => Outcome.panics
      | some srv =>
        Outcome.returns
          ({ v with stopOnce := true, stopError := srvShutdown srv ctx,
                    srvShutdowns := v.srvShutdowns + 1 }, srvShutdown srv ctx)

end prometrics

namespace logutil

/-- A `runtime.Frame`, as far as the code looks at it. -/
structure Frame where
  Function : String
  deriving DecidableEq, Repr

/-- The pieces of a character list between occurrences of `sep`. -/
def splitChars (sep : Char) : List Char → List (List Char)
  | [] => [[]]
  | c :: cs =>
    if c = sep then [] :: splitChars sep cs
    else
      match splitChars sep cs with
      | [] => [[c]]
      | piece :: pieces => (c :: piece) :: pieces

/-- The function `strings.Split(s, sep)` for a separator of one character. -/
def stringsSplit (s : String) (sep : Char) : List String :=
  (splitChars sep s.data).map String.mk

/-- Whether the character list `p` starts the character list `s`. -/
def startsWithChars : List Char → List Char → Bool
  | [], _ => true
  | _ :: _, [] => false
  | a :: p, b :: s => a == b && startsWithChars p s

/-- The function `strings.HasPrefix(s, p)`. -/
def stringsHasPrefix (s p : String) : Bool := startsWithChars p.data s.data

/-- The slice `stack[:4]` after `runtime.Callers(3, stack)` (lines 174-175): of the
frames from the caller of the `Get*Logger` function upward, the first four. -/
def Callers (callers : List Frame) : List Frame := callers.take 4

/-- The first call of `frames.Next()` on `runtime.CallersFrames(stack)`: the first frame,
or the zero `Frame` when there is none, and whether more frames follow it. -/
def firstNext : List Frame → Frame × Bool
  | [] => (⟨""⟩, false)
  | [f] => (f, false)
  | f :: _ :: _ => (f, true)

/-- The `for` statement of `getMethodName` (lines 183-197) and the `return` after it, the
locals `f` and `hasNext` being set by the init statement: the statement has a condition
and no post statement.  `fuel` bounds the number of times the condition is evaluated;
`none` when it runs out. -/
def getMethodNameLoop (f : Frame) (hasNext : Bool) : Nat → Option String
  | 0 => none
  | fuel + 1 =>
    if hasNext = true then
      let tmp := stringsSplit f.Function '/'
      if tmp.length = 0 then getMethodNameLoop f hasNext fuel
      else
        let shortName := tmp.getLastD ""
        if ¬ stringsHasPrefix shortName "logutil." = true then some shortName
        else getMethodNameLoop f hasNext fuel
    else some ""

/-- The function `getMethodName` (lines 171-198); `callers` are the frames of the stack
from the caller of the `Get*Logger` function upward. -/
def getMethodName (fuel : Nat) (callers : List Frame) : Option String :=
  let stack := Callers callers
  if stack.length < 1 then some ""
  else
    let (f, hasNext) := firstNext stack
    getMethodNameLoop f hasNext fuel

/-- The short name of a frame: what follows the last `/` of its function name. -/
def shortName (f : Frame) : String :=
  (stringsSplit f.Function '/').getLastD ""

/-- The method calling the logger, in the words of the claim: the short name of the first
captured frame whose short name does not start with `logutil.`, and the empty string when
no captured frame qualifies. -/
def callingMethod (callers : List Frame) : String :=
  match (Callers callers).find? (fun f => ! stringsHasPrefix (shortName f) "logutil.") with
  | none => ""
  | some f => shortName f

/-- The frames captured when a test of package `logutil` calls `GetDefaultLogger`. -/
def callersFromLogutilTest : List Frame :=
  [⟨"github.com/pastequo/libs.golang.utils/logutil.TestGetDefaultLogger"⟩,
   ⟨"testing.tRunner"⟩, ⟨"runtime.goexit"⟩]

end logutil

/-! ## Theorems: mongoutil -/

namespace mongoutil

open Go

/-- A run over a non-empty sequence is a step followed by a run. -/
theorem run_cons (cfg : Config) (s : Sys) (e : Event) (es : List Event) (s2 : Sys)
    (os : List Output) (h : run cfg s (e :: es) = some (s2, os)) :
    ∃ s1 o os1, step cfg s e = some (s1, o) ∧ run cfg s1 es = some (s2, os1) ∧
      os = o :: os1 := by
  simp only [run] at h
  cases h1 : step cfg s e with
  | none => simp [h1] at h
  | some r =>
    obtain ⟨s1, o⟩ := r
    simp only [h1] at h
    cases h2 : run cfg s1 es with
    | none => simp [h2] at h
    | some r2 =>
      obtain ⟨s3, os1⟩ := r2
      simp only [h2, Option.some.injEq, Prod.mk.injEq] at h
      exact ⟨s1, o, os1, rfl, by rw [h2, h.1], h.2.symm⟩

/-- Runs compose: outputs are concatenated. -/
theorem run_append (cfg : Config) (es1 es2 : List Event) (s s1 s2 : Sys)
    (os1 os2 : List Output) (h1 : run cfg s es1 = some (s1, os1))
    (h2 : run cfg s1 es2 = some (s2, os2)) :
    run cfg s (es1 ++ es2) = some (s2, os1 ++ os2) := by
  induction es1 generalizing s os1 with
  | nil =>
    simp only [run, Option.some.injEq, Prod.mk.injEq] at h1
    obtain ⟨rfl, rfl⟩ := h1
    simpa using h2
  | cons e es ih =>
    obtain ⟨s3, o, os3, hstep, hrun, rfl⟩ := run_cons cfg s e es s1 os1 h1
    have := ih s3 os3 hrun
    simp [run, hstep, this]

/-- A run over a concatenation splits at the joint. -/
theorem run_append_inv (cfg : Config) (es1 es2 : List Event) (s s2 : Sys)
    (os : List Output) (h : run cfg s (es1 ++ es2) = some (s2, os)) :
    ∃ s1 os1 os2, run cfg s es1 = some (s1, os1) ∧ run cfg s1 es2 = some (s2, os2) ∧
      os = os1 ++ os2 := by
  induction es1 generalizing s os with
  | nil => exact ⟨s, [], os, rfl, by simpa using h, rfl⟩
  | cons e es ih =>
    obtain ⟨s3, o, os3, hstep, hrun, rfl⟩ := run_cons cfg s e (es ++ es2) s2 os h
    obtain ⟨s1, os1, os2, h1, h2, rfl⟩ := ih s3 os3 hrun
    exact ⟨s1, o :: os1, os2, by simp [run, hstep, h1], h2, rfl⟩

/-- A property kept by every step is kept by every run. -/
theorem run_induction (cfg : Config) (P : Sys → Prop)
    (hstep : ∀ s e s1 o, P s → step cfg s e = some (s1, o) → P s1)
    (es : List Event) (s s1 : Sys) (os : List Output) (h0 : P s)
    (h : run cfg s es = some (s1, os)) : P s1 := by
  induction es generalizing s os with
  | nil =>
    simp only [run, Option.some.injEq, Prod.mk.injEq] at h
    exact h.1 ▸ h0
  | cons e es ih =>
    obtain ⟨s3, o, os3, hs, hrun, _⟩ := run_cons cfg s e es s1 os h
    exact ih s3 os3 (hstep s e s3 o h0 hs) hrun

/-- The state in which `NewClient` returns is reachable. -/
theorem reachable_newClient (cfg : Config) : Reachable cfg NewClient := ⟨[], [], rfl⟩

/-- A run from a reachable state ends in a reachable state. -/
theorem reachable_run (cfg : Config) (s s1 : Sys) (es : List Event) (os : List Output)
    (hs : Reachable cfg s) (h : run cfg s es = some (s1, os)) : Reachable cfg s1 := by
  obtain ⟨es0, os0, h0⟩ := hs
  exact ⟨es0 ++ es, os0 ++ os, run_append cfg es0 es NewClient s s1 os0 os h0 h⟩

/-- A step from a reachable state ends in a reachable state. -/
theorem reachable_step (cfg : Config) (s s1 : Sys) (e : Event) (o : Output)
    (hs : Reachable cfg s) (h : step cfg s e = some (s1, o)) : Reachable cfg s1 :=
  reachable_run cfg s s1 [e] [o] hs (by simp [run, h])

/-- Induction over the reachable states. -/
theorem reachable_induction (cfg : Config) (P : Sys → Prop) (h0 : P NewClient)
    (hstep : ∀ s e s1 o, P s → step cfg s e = some (s1, o) → P s1)
    (s : Sys) (hs : Reachable cfg s) : P s := by
  obtain ⟨es, os, h⟩ := hs
  exact run_induction cfg P hstep es NewClient s os h0 h

/-- A value within the `int64` range is not changed by the wrap. -/
theorem wrapInt64_of_range (x : Int) (h1 : -(2 ^ 63) ≤ x) (h2 : x < 2 ^ 63) :
    wrapInt64 x = x := by
  unfold wrapInt64
  have h : (x + 2 ^ 63) % 2 ^ 64 = x + 2 ^ 63 := by
    apply Int.emod_eq_of_lt <;> omega
  omega

/-- The local `maxTime` is 300 seconds: `5 * time.Minute` does not overflow. -/
theorem maxTime_eq : maxTime = 300000000000 := by decide

/-- The closed form lies between 1 nanosecond and 300 seconds. -/
theorem backoffNanos_bounds (k : Nat) : 0 < backoffNanos k ∧ backoffNanos k ≤ 300000000000 := by
  unfold backoffNanos Second
  have h : (0 : Int) < 2 ^ (k - 1) := by positivity
  rcases le_total ((3 : Int) * 2 ^ (k - 1)) 300 with h1 | h1
  · rw [min_eq_left h1]; constructor <;> omega
  · rw [min_eq_right h1]; constructor <;> omega

/-- Lines 61-64 take the closed form at `k` to the closed form at `k + 1`. -/
theorem nextWaitingTime_backoffNanos (k : Nat) (hk : 1 ≤ k) :
    nextWaitingTime (backoffNanos k) = backoffNanos (k + 1) := by
  have hb := backoffNanos_bounds k
  unfold nextWaitingTime
  rw [wrapInt64_of_range _ (by omega) (by omega), maxTime_eq]
  unfold backoffNanos Second at *
  have hp : (2 : Int) ^ (k + 1 - 1) = 2 * 2 ^ (k - 1) := by
    obtain ⟨j, rfl⟩ : ∃ j, k = j + 1 := ⟨k - 1, by omega⟩
    simp [pow_succ]; ring
  rw [hp]
  have h : (0 : Int) < 2 ^ (k - 1) := by positivity
  generalize (2 : Int) ^ (k - 1) = a at *
  simp only [min_def]
  split_ifs <;> omega

/-- A call of `connect` either fails and leaves the struct, or stores a session and returns
nil; which of the two does not depend on the struct. -/
theorem connect_cases (cfg : Config) (n : Nat) (c : Client) :
    (connectError cfg n ≠ none ∧ connect cfg n c = (c, connectError cfg n)) ∨
    (∃ m, connectError cfg n = none ∧ connectSession cfg n = some m ∧
      connect cfg n c = ({ c with mongoClient := some m }, none)) := by
  unfold connectError connectSession connect
  by_cases hu : cfg.mongoURL = ""
  · simp [hu]
  · simp only [hu, if_false]
    rcases h : cfg.mongoConnect n with ⟨_ | m, _ | err⟩ <;> simp

/-- The goroutine invariant holds when `NewClient` returns. -/
theorem loopInv_newClient (cfg : Config) : LoopInv cfg NewClient := by
  constructor <;> simp [NewClient, Chan.make]
  decide

/-- The method `GetCollection` hands back the state it was given. -/
theorem getCollection_state (cfg : Config) (s s1 : Sys) (ctx : Context) (db coll : String)
    (pick : Case) (r : Option Collection × Option GoError)
    (h : GetCollection cfg s ctx db coll pick = some (s1, r)) : s1 = s := by
  unfold GetCollection at h
  repeat' split at h
  all_goals simp at h
  all_goals exact h.1.symm

/-- The goroutine invariant only reads the fields listed here. -/
theorem loopInv_frame (cfg : Config) (s s1 : Sys) (hi : LoopInv cfg s)
    (h1 : s1.c.mongoClient = s.c.mongoClient) (h2 : s1.c.initDone = s.c.initDone)
    (h3 : s1.pc = s.pc) (h4 : s1.attempts = s.attempts)
    (h5 : s1.waitingTime = s.waitingTime)
    (h6 : s.c.stopInit.closes ≤ s1.c.stopInit.closes) : LoopInv cfg s1 := by
  constructor
  · rw [h1, h3]; exact hi.pending
  · rw [h1, h4]; exact hi.failed
  · rw [h1, h4]; exact hi.stored
  · rw [h2, h3]; exact hi.unfired
  · rw [h2, h3]; exact hi.fired
  · rw [h3, h4]; exact hi.tried
  · rw [h1, h3]; intro a b; exact lt_of_lt_of_le (hi.aborted a b) h6
  · rw [h3, h4, h5]; exact hi.waitConnecting
  · rw [h3, h4, h5]; exact hi.waitWaiting

/-- Every step keeps the goroutine invariant. -/
theorem loopInv_step (cfg : Config) (s s1 : Sys) (e : Event) (o : Output)
    (hi : LoopInv cfg s) (h : step cfg s e = some (s1, o)) : LoopInv cfg s1 := by
  cases e with
  | tick d =>
    simp only [step, Option.some.injEq, Prod.mk.injEq] at h
    obtain ⟨rfl, _⟩ := h
    exact loopInv_frame cfg s _ hi rfl rfl rfl rfl rfl (le_refl _)
  | getCollection ctx db coll pick =>
    simp only [step] at h
    split at h
    · simp at h
    · rename_i s2 r hg
      simp only [Option.some.injEq, Prod.mk.injEq] at h
      have := getCollection_state cfg s s2 ctx db coll pick r hg
      rw [← h.1, this]; exact hi
  | closeEnter ctx =>
    simp only [step] at h
    split at h
    · simp only [Option.some.injEq, Prod.mk.injEq] at h
      obtain ⟨rfl, _⟩ := h
      exact loopInv_frame cfg s _ hi rfl rfl rfl rfl rfl (by simp [Chan.close])
    · simp at h
  | closeResolve pick =>
    simp only [step] at h
    repeat' split at h
    all_goals simp only [Option.some.injEq, Prod.mk.injEq, reduceCtorEq] at h
    all_goals obtain ⟨rfl, _⟩ := h
    all_goals exact loopInv_frame cfg s _ hi rfl rfl rfl rfl rfl (le_refl _)
  | closeReplay ctx =>
    simp only [step] at h
    split at h
    · simp only [Option.some.injEq, Prod.mk.injEq] at h
      rw [← h.1]; exact hi
    · simp at h
  | loopCloseInitDone =>
    simp only [step] at h
    split at h
    · rename_i hpc
      simp only [Option.some.injEq, Prod.mk.injEq] at h
      obtain ⟨rfl, _⟩ := h
      have h0 := hi.unfired (by rw [hpc]; decide)
      constructor <;> simp_all [Chan.close]
      · exact hi.failed
      · exact hi.stored
      · exact hi.tried (by rw [hpc]; decide)
      · exact hi.aborted (Or.inl hpc)
    · simp at h
  | loopSelect pick =>
    simp only [step] at h
    split at h
    · rename_i hpc
      have hnil := hi.pending (Or.inr hpc)
      have hk := hi.tried (by rw [hpc]; decide)
      have hw := hi.waitWaiting hpc
      split at h
      · simp at h
      · rename_i hsel
        simp only [Option.some.injEq, Prod.mk.injEq] at h
        obtain ⟨rfl, _⟩ := h
        have hstop : s.c.stopInit.closed = true := by
          unfold select2 at hsel
          split at hsel <;> simp_all
        constructor <;> simp_all [Chan.closed]
        · exact hi.failed hnil
        · exact hi.unfired (by rw [hpc]; decide)
      · simp only [Option.some.injEq, Prod.mk.injEq] at h
        obtain ⟨rfl, _⟩ := h
        constructor <;> simp_all
        · exact hi.failed hnil
        · exact hi.unfired (by rw [hpc]; decide)
        · exact nextWaitingTime_backoffNanos _ hk
    · simp at h
  | loopConnect =>
    simp only [step] at h
    split at h
    · rename_i hpc
      have hnil := hi.pending (Or.inl hpc)
      have h0 := hi.unfired (by rw [hpc]; decide)
      have hw := hi.waitConnecting hpc
      have hf := hi.failed hnil
      rcases connect_cases cfg s.attempts s.c with ⟨he, hc⟩ | ⟨m, he, hm, hc⟩
      · rw [hc] at h
        cases hce : connectError cfg s.attempts with
        | none => exact absurd hce he
        | some err =>
          simp only [hce, Option.some.injEq, Prod.mk.injEq] at h
          obtain ⟨rfl, _⟩ := h
          constructor <;> simp_all
          intro i hi2
          rcases Nat.lt_succ_iff_lt_or_eq.mp hi2 with h3 | h3
          · exact hf i h3
          · rw [h3, hce]; simp
      · rw [hc] at h
        simp only [Option.some.injEq, Prod.mk.injEq] at h
        obtain ⟨rfl, _⟩ := h
        constructor <;> simp_all
    · simp at h

/-- The shutdown invariant holds when `NewClient` returns. -/
theorem closeInv_newClient : CloseInv NewClient := by
  constructor <;> simp [NewClient, Chan.make]

/-- Every step keeps the shutdown invariant. -/
theorem closeInv_step (cfg : Config) (s s1 : Sys) (e : Event) (o : Output)
    (hi : CloseInv s) (h : step cfg s e = some (s1, o)) : CloseInv s1 := by
  have h1 := hi.stopCount
  have h2 := hi.exclusive
  have h3 := hi.fresh
  have h4 := hi.atMostOne
  have h5 := hi.receiver
  cases e with
  | tick d =>
    simp only [step, Option.some.injEq, Prod.mk.injEq] at h
    obtain ⟨rfl, _⟩ := h
    exact ⟨h1, h2, h3, h4, h5⟩
  | getCollection ctx db coll pick =>
    simp only [step] at h
    split at h
    · simp at h
    · rename_i s2 r hg
      simp only [Option.some.injEq, Prod.mk.injEq] at h
      have := getCollection_state cfg s s2 ctx db coll pick r hg
      rw [← h.1, this]; exact hi
  | closeReplay ctx =>
    simp only [step] at h
    split at h
    · simp only [Option.some.injEq, Prod.mk.injEq] at h
      rw [← h.1]; exact hi
    · simp at h
  | loopCloseInitDone =>
    simp only [step] at h
    split at h
    · simp only [Option.some.injEq, Prod.mk.injEq] at h
      obtain ⟨rfl, _⟩ := h
      exact ⟨h1, h2, h3, h4, h5⟩
    · simp at h
  | loopSelect pick =>
    simp only [step] at h
    repeat' split at h
    all_goals simp only [Option.some.injEq, Prod.mk.injEq, reduceCtorEq] at h
    all_goals obtain ⟨rfl, _⟩ := h
    all_goals exact ⟨h1, h2, h3, h4, h5⟩
  | loopConnect =>
    simp only [step] at h
    split at h
    · rcases connect_cases cfg s.attempts s.c with ⟨he, hc⟩ | ⟨m, he, hm, hc⟩
      · rw [hc] at h
        cases hce : connectError cfg s.attempts with
        | none => exact absurd hce he
        | some err =>
          simp only [hce, Option.some.injEq, Prod.mk.injEq] at h
          obtain ⟨rfl, _⟩ := h
          exact ⟨h1, h2, h3, h4, h5⟩
      · rw [hc] at h
        simp only [Option.some.injEq, Prod.mk.injEq] at h
        obtain ⟨rfl, _⟩ := h
        exact ⟨h1, h2, h3, h4, h5⟩
    · simp at h
  | closeEnter ctx =>
    simp only [step] at h
    split at h
    · rename_i hg
      simp only [Option.some.injEq, Prod.mk.injEq] at h
      obtain ⟨rfl, _⟩ := h
      constructor <;> simp_all [Chan.close]
    · simp at h
  | closeResolve pick =>
    simp only [step] at h
    split at h
    · simp at h
    · rename_i ctx hcl
      have hso : s.c.stopOnce = false := by
        cases hb : s.c.stopOnce with
        | false => rfl
        | true => rw [h2 hb] at hcl; simp at hcl
      have hd := (h3 hso).1
      repeat' split at h
      all_goals simp only [Option.some.injEq, Prod.mk.injEq, reduceCtorEq] at h
      all_goals obtain ⟨rfl, _⟩ := h
      all_goals constructor <;> simp_all

/-- The goroutine invariant holds in every reachable state. -/
theorem loopInv_reachable (cfg : Config) (s : Sys) (hs : Reachable cfg s) : LoopInv cfg s :=
  reachable_induction cfg (LoopInv cfg) (loopInv_newClient cfg)
    (fun a e b o => loopInv_step cfg a b e o) s hs

/-- The shutdown invariant holds in every reachable state. -/
theorem closeInv_reachable (cfg : Config) (s : Sys) (hs : Reachable cfg s) : CloseInv s :=
  reachable_induction cfg CloseInv closeInv_newClient
    (fun a e b o => closeInv_step cfg a b e o) s hs

/-- The step of a failing attempt. -/
theorem step_loopConnect_fail (cfg : Config) (s : Sys) (hpc : s.pc = LoopPc.connecting)
    (hf : connectError cfg s.attempts ≠ none) :
    step cfg s Event.loopConnect =
      some ({ s with attempts := s.attempts + 1, pc := LoopPc.waiting, selectAt := s.now },
        Output.silent) := by
  rcases connect_cases cfg s.attempts s.c with ⟨he, hc⟩ | ⟨m, he, _, _⟩
  · cases hce : connectError cfg s.attempts with
    | none => exact absurd hce hf
    | some err => simp [step, hpc, hc, hce]
  · exact absurd he hf

/-- The step of a successful attempt. -/
theorem step_loopConnect_ok (cfg : Config) (s : Sys) (m : Session)
    (hpc : s.pc = LoopPc.connecting) (he : connectError cfg s.attempts = none)
    (hm : connectSession cfg s.attempts = some m) :
    step cfg s Event.loopConnect =
      some ({ s with c := { s.c with mongoClient := some m }, attempts := s.attempts + 1,
                     pc := LoopPc.leaving }, Output.silent) := by
  rcases connect_cases cfg s.attempts s.c with ⟨hf, _⟩ | ⟨m1, _, hm1, hc⟩
  · exact absurd he hf
  · rw [hm] at hm1
    simp only [Option.some.injEq] at hm1
    subst hm1
    simp [step, hpc, hc]

/-- A step followed by a run is a run. -/
theorem run_step (cfg : Config) (s s1 s2 : Sys) (e : Event) (es : List Event) (o : Output)
    (os : List Output) (h1 : step cfg s e = some (s1, o))
    (h2 : run cfg s1 es = some (s2, os)) : run cfg s (e :: es) = some (s2, o :: os) := by
  simp [run, h1, h2]

/-- The timer case of the goroutine's `select`, once the timer is ready. -/
theorem step_loopSelect_timer (cfg : Config) (s : Sys) (hpc : s.pc = LoopPc.waiting)
    (ht : timerReady s = true) :
    step cfg s (Event.loopSelect Case.second) =
      some ({ s with pc := LoopPc.connecting, waitingTime := nextWaitingTime s.waitingTime },
        Output.silent) := by
  have hsel : ∀ b, select2 b true Case.second = some Case.second := by
    intro b; cases b <;> rfl
  simp [step, hpc, ht, hsel]

/-- The schedule of `n` failed attempts runs, and only moves the goroutine and the clock. -/
theorem run_retrySchedule (cfg : Config) (n : Nat) (s : Sys)
    (hpc : s.pc = LoopPc.connecting)
    (hf : ∀ i, i < n → connectError cfg (s.attempts + i) ≠ none) :
    ∃ s1 os, run cfg s (retrySchedule n s.waitingTime) = some (s1, os) ∧
      s1.pc = LoopPc.connecting ∧ s1.attempts = s.attempts + n ∧ s1.c = s.c ∧
      s1.closing = s.closing ∧ s1.disconnects = s.disconnects := by
  induction n generalizing s with
  | zero => exact ⟨s, [], rfl, hpc, rfl, rfl, rfl, rfl⟩
  | succ n ih =>
    have h1 := step_loopConnect_fail cfg s hpc (by simpa using hf 0 (Nat.succ_pos n))
    have h2 : step cfg
        { s with attempts := s.attempts + 1, pc := LoopPc.waiting, selectAt := s.now }
        (Event.tick s.waitingTime.toNat) =
        some ({ s with attempts := s.attempts + 1, pc := LoopPc.waiting, selectAt := s.now,
                       now := s.now + s.waitingTime.toNat }, Output.silent) := rfl
    have h3 := step_loopSelect_timer cfg
      { s with attempts := s.attempts + 1, pc := LoopPc.waiting, selectAt := s.now,
               now := s.now + s.waitingTime.toNat } rfl (by simp [timerReady])
    obtain ⟨s1, os, hrun, hp, ha, hc, hcl, hd⟩ :=
      ih { s with attempts := s.attempts + 1, pc := LoopPc.connecting, selectAt := s.now,
                  now := s.now + s.waitingTime.toNat,
                  waitingTime := nextWaitingTime s.waitingTime } rfl
        (by
          intro i hi
          have := hf (i + 1) (Nat.succ_lt_succ hi)
          simpa [Nat.add_assoc, Nat.add_comm 1 i] using this)
    refine ⟨s1, Output.silent :: Output.silent :: Output.silent :: os, ?_, hp, ?_, hc, hcl, hd⟩
    · exact run_step cfg _ _ _ _ _ _ _ h1 (run_step cfg _ _ _ _ _ _ _ h2
        (run_step cfg _ _ _ _ _ _ _ h3 hrun))
    · simp only at ha
      omega

/-- The goroutine on its own reaches its end after `n` failures and a success. -/
theorem run_successSchedule (cfg : Config) (n : Nat) (m : Session)
    (hf : ∀ i, i < n → connectError cfg i ≠ none) (he : connectError cfg n = none)
    (hm : connectSession cfg n = some m) :
    ∃ s os, run cfg NewClient (successSchedule n) = some (s, os) ∧
      s.pc = LoopPc.finished ∧ s.attempts = n + 1 ∧ s.c.mongoClient = some m ∧
      s.c.initDone.closes = 1 ∧ s.c.stopInit.closes = 0 := by
  obtain ⟨s1, os1, hrun, hp, ha, hc, _, _⟩ :=
    run_retrySchedule cfg n NewClient rfl (by simpa [NewClient] using hf)
  have ha1 : s1.attempts = n := by simpa [NewClient] using ha
  have h1 := step_loopConnect_ok cfg s1 m hp (by rw [ha1]; exact he) (by rw [ha1]; exact hm)
  have h2 : step cfg
      { s1 with c := { s1.c with mongoClient := some m }, attempts := s1.attempts + 1,
                pc := LoopPc.leaving }
      Event.loopCloseInitDone =
      some ({ s1 with c := { s1.c with mongoClient := some m,
                                        initDone := s1.c.initDone.close },
                      attempts := s1.attempts + 1, pc := LoopPc.finished },
        Output.silent) := by
    simp [step]
  refine ⟨_, _, run_append cfg _ _ _ _ _ _ _ hrun
    (run_step cfg _ _ _ _ _ _ _ h1 (run_step cfg _ _ _ _ _ _ _ h2 rfl)), rfl, ?_, rfl, ?_, ?_⟩
  · simp [ha1]
  · simp [hc, NewClient, Chan.close, Chan.make]
  · simp [hc, NewClient, Chan.make]

/-- A call of `GetCollection` as a step. -/
theorem getCollection_step (cfg : Config) (s : Sys) (ctx : Context) (db coll : String)
    (pick : Case) (r : Option Collection × Option GoError)
    (h : GetCollection cfg s ctx db coll pick = some (s, r)) :
    step cfg s (Event.getCollection ctx db coll pick) = some (s, Output.collection r) := by
  simp [step, h]

/-- A step that is not of a `Close` call leaves the shutdown side alone. -/
theorem step_background (cfg : Config) (s s1 : Sys) (e : Event) (o : Output)
    (hb : e.isBackground = true) (h : step cfg s e = some (s1, o)) :
    s1.closing = s.closing ∧ s1.c.stopOnce = s.c.stopOnce ∧ s1.c.stopError = s.c.stopError ∧
      s1.disconnects = s.disconnects ∧ s1.c.stopInit = s.c.stopInit := by
  cases e with
  | tick d =>
    simp only [step, Option.some.injEq, Prod.mk.injEq] at h
    obtain ⟨rfl, _⟩ := h
    simp
  | getCollection ctx db coll pick =>
    simp only [step] at h
    split at h
    · simp at h
    · rename_i s2 r hg
      simp only [Option.some.injEq, Prod.mk.injEq] at h
      have := getCollection_state cfg s s2 ctx db coll pick r hg
      rw [← h.1, this]; simp
  | loopCloseInitDone =>
    simp only [step] at h
    split at h
    · simp only [Option.some.injEq, Prod.mk.injEq] at h
      obtain ⟨rfl, _⟩ := h
      simp
    · simp at h
  | loopSelect pick =>
    simp only [step] at h
    repeat' split at h
    all_goals simp only [Option.some.injEq, Prod.mk.injEq, reduceCtorEq] at h
    all_goals obtain ⟨rfl, _⟩ := h
    all_goals simp
  | loopConnect =>
    simp only [step] at h
    split at h
    · rcases connect_cases cfg s.attempts s.c with ⟨he, hc⟩ | ⟨m, he, hm, hc⟩
      · rw [hc] at h
        cases hce : connectError cfg s.attempts with
        | none => exact absurd hce he
        | some err =>
          simp only [hce, Option.some.injEq, Prod.mk.injEq] at h
          obtain ⟨rfl, _⟩ := h
          simp
      · rw [hc] at h
        simp only [Option.some.injEq, Prod.mk.injEq] at h
        obtain ⟨rfl, _⟩ := h
        simp
    · simp at h
  | closeEnter ctx => simp [Event.isBackground] at hb
  | closeResolve pick => simp [Event.isBackground] at hb
  | closeReplay ctx => simp [Event.isBackground] at hb

/-- A run without steps of `Close` calls leaves the shutdown side alone. -/
theorem run_background (cfg : Config) (es : List Event) (s s1 : Sys) (os : List Output)
    (hb : es.all Event.isBackground = true) (h : run cfg s es = some (s1, os)) :
    s1.closing = s.closing ∧ s1.c.stopOnce = s.c.stopOnce ∧ s1.c.stopError = s.c.stopError ∧
      s1.disconnects = s.disconnects ∧ s1.c.stopInit = s.c.stopInit := by
  induction es generalizing s os with
  | nil =>
    simp only [run, Option.some.injEq, Prod.mk.injEq] at h
    rw [← h.1]; simp
  | cons e es ih =>
    simp only [List.all_cons, Bool.and_eq_true] at hb
    obtain ⟨s3, o, os3, hs, hrun, _⟩ := run_cons cfg s e es s1 os h
    have h1 := step_background cfg s s3 e o hb.1 hs
    have h2 := ih s3 os3 hb.2 hrun
    refine ⟨h2.1.trans h1.1, h2.2.1.trans h1.2.1, h2.2.2.1.trans h1.2.2.1,
      h2.2.2.2.1.trans h1.2.2.2.1, h2.2.2.2.2.trans h1.2.2.2.2⟩

/-- What the second half of the first `Close` call does, by the case its `select` takes. -/
theorem closeResolve_cases (cfg : Config) (s s1 : Sys) (pick : Case) (o : Output)
    (h : step cfg s (Event.closeResolve pick) = some (s1, o)) :
    ∃ ctx, s.closing = some ctx ∧ s1.now = s.now ∧ s1.c.mongoClient = s.c.mongoClient ∧
      s1.c.initDone = s.c.initDone ∧ s1.c.stopInit = s.c.stopInit ∧
      s1.c.stopOnce = true ∧ s1.closing = none ∧ o = Output.closeRet s1.c.stopError ∧
      ((ctx.done s.now = true ∧ s1.c.stopError = ctx.Err s.now ∧
          s1.disconnects = s.disconnects) ∨
       (s.c.initDone.closed = true ∧ s.c.mongoClient = none ∧ s1.c.stopError = none ∧
          s1.disconnects = s.disconnects) ∨
       (∃ m, s.c.initDone.closed = true ∧ s.c.mongoClient = some m ∧
          s1.c.stopError = cfg.Disconnect m ctx ∧
          s1.disconnects = s.disconnects ++ [(some m, ctx)])) := by
  simp only [step] at h
  split at h
  · simp at h
  · rename_i ctx hcl
    refine ⟨ctx, hcl, ?_⟩
    have hsel : ∀ a b c, select2 a b pick = some c →
        (c = Case.first → a = true) ∧ (c = Case.second → b = true) := by
      intro a b c hc
      cases a <;> cases b <;> simp [select2] at hc <;> simp [← hc]
    split at h
    · simp at h
    · rename_i hs
      have hd := (hsel _ _ _ hs).2 rfl
      simp only [Option.some.injEq, Prod.mk.injEq] at h
      obtain ⟨rfl, rfl⟩ := h
      simp [hd]
    · rename_i hs
      have hd := (hsel _ _ _ hs).1 rfl
      split at h
      · rename_i hm
        simp only [Option.some.injEq, Prod.mk.injEq] at h
        obtain ⟨rfl, rfl⟩ := h
        simp [hd, hm]
      · rename_i m hm
        simp only [Option.some.injEq, Prod.mk.injEq] at h
        obtain ⟨rfl, rfl⟩ := h
        simp [hd, hm]

/-- A first call of `Close` that returns is an entry, a run of the environment and a
resolution. -/
theorem close_first (cfg : Config) (s s1 : Sys) (ctx : Context) (env : CloseEnv)
    (e : Option GoError) (hf : s.c.stopOnce = false)
    (h : Close cfg s ctx env = some (s1, e)) :
    ∃ sa sb osb o, step cfg s (Event.closeEnter ctx) = some (sa, Output.silent) ∧
      sa.closing = some ctx ∧
      env.during.all Event.isBackground = true ∧
      run cfg sa env.during = some (sb, osb) ∧
      step cfg sb (Event.closeResolve env.pick) = some (s1, o) ∧ e = s1.c.stopError := by
  unfold Close at h
  simp only [hf, Bool.false_eq_true, if_false] at h
  split at h
  · rename_i hb
    split at h
    · simp at h
    · rename_i sx osx hrun
      simp only [Option.some.injEq, Prod.mk.injEq] at h
      obtain ⟨rfl, rfl⟩ := h
      obtain ⟨sa, o1, os1, hst, hrest, _⟩ := run_cons cfg s _ _ _ _ hrun
      obtain ⟨sb, osb, os2, hd, hlast, _⟩ := run_append_inv cfg _ _ _ _ _ hrest
      obtain ⟨sc, o2, os3, hres, hnil, _⟩ := run_cons cfg sb _ _ _ _ hlast
      simp only [run, Option.some.injEq, Prod.mk.injEq] at hnil
      obtain ⟨rfl, _⟩ := hnil
      have ho1 : o1 = Output.silent ∧ sa.closing = some ctx := by
        simp only [step] at hst
        split at hst
        · simp only [Option.some.injEq, Prod.mk.injEq] at hst
          obtain ⟨rfl, rfl⟩ := hst
          simp
        · simp at hst
      rw [ho1.1] at hst
      exact ⟨sa, sb, osb, o2, hst, ho1.2, hb, hd, hres, rfl⟩
  · simp at h

/-- Once `stopOnce` is done, no step changes the shutdown side, and a step that returns from
`Close` returns `stopError`. -/
theorem step_after_done (cfg : Config) (s s1 : Sys) (e : Event) (o : Output)
    (hd : s.c.stopOnce = true) (hc : s.closing = none)
    (h : step cfg s e = some (s1, o)) :
    s1.c.stopOnce = true ∧ s1.closing = none ∧ s1.c.stopError = s.c.stopError ∧
      s1.disconnects = s.disconnects ∧ s1.c.stopInit = s.c.stopInit ∧
      ∀ err, o = Output.closeRet err → err = s.c.stopError := by
  by_cases hb : e.isBackground = true
  · obtain ⟨h1, h2, h3, h4, h5⟩ := step_background cfg s s1 e o hb h
    refine ⟨h2.trans hd, h1.trans hc, h3, h4, h5, ?_⟩
    intro err ho
    subst ho
    cases e <;> simp [Event.isBackground] at hb
    all_goals simp only [step] at h
    all_goals repeat' split at h
    all_goals simp at h
  · cases e <;> simp [Event.isBackground] at hb
    · simp [step, hd] at h
    · simp [step, hc] at h
    · simp only [step, hd, if_true, Option.some.injEq, Prod.mk.injEq] at h
      obtain ⟨rfl, rfl⟩ := h
      simp [hd, hc]

/-- Once `stopOnce` is done, no run changes the shutdown side, and every return from `Close` in
it is `stopError`. -/
theorem run_after_done (cfg : Config) (es : List Event) (s s1 : Sys) (os : List Output)
    (hd : s.c.stopOnce = true) (hc : s.closing = none)
    (h : run cfg s es = some (s1, os)) :
    s1.c.stopOnce = true ∧ s1.closing = none ∧ s1.c.stopError = s.c.stopError ∧
      s1.disconnects = s.disconnects ∧ s1.c.stopInit = s.c.stopInit ∧
      ∀ err, Output.closeRet err ∈ os → err = s.c.stopError := by
  induction es generalizing s os with
  | nil =>
    simp only [run, Option.some.injEq, Prod.mk.injEq] at h
    obtain ⟨rfl, rfl⟩ := h
    simp [hd, hc]
  | cons e es ih =>
    obtain ⟨s3, o, os3, hs, hrun, rfl⟩ := run_cons cfg s e es s1 os h
    obtain ⟨a1, a2, a3, a4, a5, a6⟩ := step_after_done cfg s s3 e o hd hc hs
    obtain ⟨b1, b2, b3, b4, b5, b6⟩ := ih s3 os3 a1 a2 hrun
    refine ⟨b1, b2, b3.trans a3, b4.trans a4, b5.trans a5, ?_⟩
    intro err hmem
    rcases List.mem_cons.mp hmem with h1 | h1
    · exact a6 err h1.symm
    · rw [← a3]; exact b6 err h1

/-- A call of `Close` with `stopOnce` done returns `stopError` and changes nothing. -/
theorem close_done (cfg : Config) (s : Sys) (ctx : Context) (env : CloseEnv)
    (hd : s.c.stopOnce = true) : Close cfg s ctx env = some (s, s.c.stopError) := by
  simp [Close, hd]

/-- The closed form as a natural number of nanoseconds. -/
theorem backoffNanos_toNat (k : Nat) :
    (backoffNanos k).toNat = min (3 * 2 ^ (k - 1)) 300 * 1000000000 := by
  have h : backoffNanos k = ((min (3 * 2 ^ (k - 1)) 300 * 1000000000 : Nat) : Int) := by
    unfold backoffNanos Second
    push_cast
    rfl
  rw [h, Int.toNat_ofNat]

/-- On `downConfig` every attempt fails. -/
theorem downConfig_fails (i : Nat) : connectError downConfig i ≠ none := by
  simp [connectError, connect, downConfig]

/-- The index of the first successful attempt is unique. -/
theorem first_success_unique (cfg : Config) (a b : Nat)
    (ha : ∀ i, i < a → connectError cfg i ≠ none) (hb : ∀ i, i < b → connectError cfg i ≠ none)
    (ea : connectError cfg a = none) (eb : connectError cfg b = none) : a = b := by
  rcases Nat.lt_trichotomy a b with h | h | h
  · exact absurd ea (hb a h)
  · exact h
  · exact absurd eb (ha b h)

/-- Once the goroutine has returned, none of its steps is enabled. -/
theorem step_finished (cfg : Config) (s : Sys) (hpc : s.pc = LoopPc.finished) :
    step cfg s Event.loopConnect = none ∧ step cfg s Event.loopCloseInitDone = none ∧
      ∀ pick, step cfg s (Event.loopSelect pick) = none := by
  simp [step, hpc]

/-- A retry schedule holds no step of a `Close` call. -/
theorem retrySchedule_background (n : Nat) (w : Int) :
    (retrySchedule n w).all Event.isBackground = true := by
  induction n generalizing w with
  | zero => rfl
  | succ n ih => simp [retrySchedule, Event.isBackground, ih]

/-- From a reachable state in which an attempt is under way, the goroutine and the clock can
run to the goroutine's end, if some attempt succeeds. -/
theorem progress_connecting (cfg : Config) (N : Nat)
    (hfail : ∀ i, i < N → connectError cfg i ≠ none) (hok : connectError cfg N = none)
    (s : Sys) (hs : Reachable cfg s) (hpc : s.pc = LoopPc.connecting) :
    ∃ es s1 os, es.all Event.isBackground = true ∧ run cfg s es = some (s1, os) ∧
      s1.pc = LoopPc.finished := by
  have hi := loopInv_reachable cfg s hs
  have hle : s.attempts ≤ N := by
    by_contra hlt
    exact hi.failed (hi.pending (Or.inl hpc)) N (by omega) hok
  obtain ⟨s1, os1, hrun, hp, ha, _, _, _⟩ :=
    run_retrySchedule cfg (N - s.attempts) s hpc
      (by intro i hlt; exact hfail _ (by omega))
  have ha1 : s1.attempts = N := by omega
  obtain ⟨m, hm⟩ : ∃ m, connectSession cfg N = some m := by
    rcases connect_cases cfg N NewClient.c with ⟨h1, _⟩ | ⟨m, _, h2, _⟩
    · exact absurd hok h1
    · exact ⟨m, h2⟩
  have h1 := step_loopConnect_ok cfg s1 m hp (by rw [ha1]; exact hok) (by rw [ha1]; exact hm)
  have h2 : step cfg
      { s1 with c := { s1.c with mongoClient := some m }, attempts := s1.attempts + 1,
                pc := LoopPc.leaving }
      Event.loopCloseInitDone =
      some ({ s1 with c := { s1.c with mongoClient := some m,
                                        initDone := s1.c.initDone.close },
                      attempts := s1.attempts + 1, pc := LoopPc.finished },
        Output.silent) := by
    simp [step]
  refine ⟨retrySchedule (N - s.attempts) s.waitingTime ++
      [Event.loopConnect, Event.loopCloseInitDone], _, _, ?_,
    run_append cfg _ _ _ _ _ _ _ hrun
      (run_step cfg _ _ _ _ _ _ _ h1 (run_step cfg _ _ _ _ _ _ _ h2 rfl)), rfl⟩
  simp [retrySchedule_background, Event.isBackground]

/-- From every reachable state the goroutine and the clock can run to the goroutine's end, if
some attempt succeeds. -/
theorem loop_progress (cfg : Config) (N : Nat)
    (hfail : ∀ i, i < N → connectError cfg i ≠ none) (hok : connectError cfg N = none)
    (s : Sys) (hs : Reachable cfg s) :
    ∃ es s1 os, es.all Event.isBackground = true ∧ run cfg s es = some (s1, os) ∧
      s1.pc = LoopPc.finished := by
  cases hpc : s.pc with
  | finished => exact ⟨[], s, [], rfl, rfl, hpc⟩
  | leaving =>
    have h1 : step cfg s Event.loopCloseInitDone =
        some ({ s with c := { s.c with initDone := s.c.initDone.close },
                       pc := LoopPc.finished }, Output.silent) := by
      simp only [step, hpc, if_true]
    exact ⟨[Event.loopCloseInitDone], _, _, rfl, run_step cfg s _ _ _ [] _ [] h1 rfl, rfl⟩
  | connecting => exact progress_connecting cfg N hfail hok s hs hpc
  | waiting =>
    have h1 : step cfg s (Event.tick (s.selectAt + s.waitingTime.toNat)) =
        some ({ s with now := s.now + (s.selectAt + s.waitingTime.toNat) }, Output.silent) :=
      rfl
    have h2 := step_loopSelect_timer cfg
      { s with now := s.now + (s.selectAt + s.waitingTime.toNat) } hpc
      (by simp only [timerReady, decide_eq_true_eq]; omega)
    have hr := reachable_step cfg _ _ _ _ (reachable_step cfg _ _ _ _ hs h1) h2
    obtain ⟨es, s1, os, hb, hrun, hfin⟩ := progress_connecting cfg N hfail hok _ hr rfl
    refine ⟨Event.tick (s.selectAt + s.waitingTime.toNat) :: Event.loopSelect Case.second :: es,
      s1, _, ?_, run_step cfg _ _ _ _ _ _ _ h1 (run_step cfg _ _ _ _ _ _ _ h2 hrun), hfin⟩
    simp [Event.isBackground, hb]

/-- What holds in every state reached with `stopInit` open, when attempt `N` is the first to
succeed. -/
theorem ready_safety (cfg : Config) (N : Nat) (m : Session)
    (hfail : ∀ i, i < N → connectError cfg i ≠ none)
    (hok : connectError cfg N = none) (hm : connectSession cfg N = some m)
    (s : Sys) (hs : Reachable cfg s) (hstop : s.c.stopInit.closes = 0) :
    s.attempts ≤ N + 1 ∧
    (s.attempts ≤ N → s.c.mongoClient = none) ∧
    (s.attempts = N + 1 → s.c.mongoClient = some m) ∧
    s.c.initDone.closes ≤ 1 ∧
    (s.c.initDone.closes = 1 → s.attempts = N + 1 ∧ s.c.mongoClient = some m) ∧
    (s.pc = LoopPc.finished → s.c.initDone.closes = 1 ∧
      step cfg s Event.loopConnect = none ∧ step cfg s Event.loopCloseInitDone = none ∧
      ∀ pick, step cfg s (Event.loopSelect pick) = none) := by
  have hi := loopInv_reachable cfg s hs
  have key : (s.c.mongoClient = none ∧ s.attempts ≤ N) ∨
      (s.c.mongoClient = some m ∧ s.attempts = N + 1) := by
    cases hmc : s.c.mongoClient with
    | none =>
      refine Or.inl ⟨rfl, ?_⟩
      by_contra hlt
      exact hi.failed hmc N (by omega) hok
    | some m1 =>
      obtain ⟨h1, h2, h3, h4⟩ := hi.stored m1 hmc
      have := first_success_unique cfg _ _ h2 hfail h3 hok
      have hm1 : m1 = m := by
        rw [this, hm] at h4
        exact (Option.some.inj h4).symm
      exact Or.inr ⟨by rw [hm1], by omega⟩
  have hfin : s.pc = LoopPc.finished → s.c.mongoClient = some m ∧ s.attempts = N + 1 := by
    intro hpc
    rcases key with ⟨h1, _⟩ | h
    · have := hi.aborted (Or.inr hpc) h1
      omega
    · exact h
  have hcl : s.c.initDone.closes = 1 → s.pc = LoopPc.finished := by
    intro h1
    by_contra hne
    have := hi.unfired hne
    omega
  refine ⟨?_, ?_, ?_, ?_, ?_, ?_⟩
  · rcases key with ⟨_, h⟩ | ⟨_, h⟩ <;> omega
  · intro h
    rcases key with ⟨h1, _⟩ | ⟨_, h2⟩
    · exact h1
    · omega
  · intro h
    rcases key with ⟨_, h1⟩ | ⟨h2, _⟩
    · omega
    · exact h2
  · by_cases hpc : s.pc = LoopPc.finished
    · rw [hi.fired hpc]
    · rw [hi.unfired hpc]; omega
  · intro h
    have := hfin (hcl h)
    exact ⟨this.2, this.1⟩
  · intro hpc
    exact ⟨hi.fired hpc, step_finished cfg s hpc⟩

/-- Only a return of `connect` can change `mongoClient`. -/
theorem step_mongoClient (cfg : Config) (s s1 : Sys) (e : Event) (o : Output)
    (h : step cfg s e = some (s1, o)) :
    s1.c.mongoClient = s.c.mongoClient ∨ (e = Event.loopConnect ∧ s.pc = LoopPc.connecting) := by
  cases e with
  | loopConnect =>
    simp only [step] at h
    split at h
    · rename_i hpc; exact Or.inr ⟨rfl, hpc⟩
    · simp at h
  | tick d =>
    simp only [step, Option.some.injEq, Prod.mk.injEq] at h
    obtain ⟨rfl, _⟩ := h
    exact Or.inl rfl
  | getCollection ctx db coll pick =>
    simp only [step] at h
    split at h
    · simp at h
    · rename_i s2 r hg
      simp only [Option.some.injEq, Prod.mk.injEq] at h
      have := getCollection_state cfg s s2 ctx db coll pick r hg
      rw [← h.1, this]; exact Or.inl rfl
  | loopCloseInitDone =>
    simp only [step] at h
    split at h
    · simp only [Option.some.injEq, Prod.mk.injEq] at h
      obtain ⟨rfl, _⟩ := h
      exact Or.inl rfl
    · simp at h
  | loopSelect pick =>
    simp only [step] at h
    repeat' split at h
    all_goals simp only [Option.some.injEq, Prod.mk.injEq, reduceCtorEq] at h
    all_goals obtain ⟨rfl, _⟩ := h
    all_goals exact Or.inl rfl
  | closeEnter ctx =>
    simp only [step] at h
    split at h
    · simp only [Option.some.injEq, Prod.mk.injEq] at h
      obtain ⟨rfl, _⟩ := h
      exact Or.inl rfl
    · simp at h
  | closeResolve pick =>
    obtain ⟨_, _, _, h3, _⟩ := closeResolve_cases cfg s s1 pick o h
    exact Or.inl h3
  | closeReplay ctx =>
    simp only [step] at h
    split at h
    · simp only [Option.some.injEq, Prod.mk.injEq] at h
      rw [← h.1]; exact Or.inl rfl
    · simp at h

/-- Only the goroutine's `close(ret.initDone)` can change `initDone`. -/
theorem step_initDone (cfg : Config) (s s1 : Sys) (e : Event) (o : Output)
    (h : step cfg s e = some (s1, o)) :
    s1.c.initDone = s.c.initDone ∨ (e = Event.loopCloseInitDone ∧ s.pc = LoopPc.leaving) := by
  cases e with
  | loopCloseInitDone =>
    simp only [step] at h
    split at h
    · rename_i hpc; exact Or.inr ⟨rfl, hpc⟩
    · simp at h
  | tick d =>
    simp only [step, Option.some.injEq, Prod.mk.injEq] at h
    obtain ⟨rfl, _⟩ := h
    exact Or.inl rfl
  | getCollection ctx db coll pick =>
    simp only [step] at h
    split at h
    · simp at h
    · rename_i s2 r hg
      simp only [Option.some.injEq, Prod.mk.injEq] at h
      have := getCollection_state cfg s s2 ctx db coll pick r hg
      rw [← h.1, this]; exact Or.inl rfl
  | loopConnect =>
    simp only [step] at h
    split at h
    · rcases connect_cases cfg s.attempts s.c with ⟨he, hc⟩ | ⟨m, he, hm, hc⟩
      · rw [hc] at h
        cases hce : connectError cfg s.attempts with
        | none => exact absurd hce he
        | some err =>
          simp only [hce, Option.some.injEq, Prod.mk.injEq] at h
          obtain ⟨rfl, _⟩ := h
          exact Or.inl rfl
      · rw [hc] at h
        simp only [Option.some.injEq, Prod.mk.injEq] at h
        obtain ⟨rfl, _⟩ := h
        exact Or.inl rfl
    · simp at h
  | loopSelect pick =>
    simp only [step] at h
    repeat' split at h
    all_goals simp only [Option.some.injEq, Prod.mk.injEq, reduceCtorEq] at h
    all_goals obtain ⟨rfl, _⟩ := h
    all_goals exact Or.inl rfl
  | closeEnter ctx =>
    simp only [step] at h
    split at h
    · simp only [Option.some.injEq, Prod.mk.injEq] at h
      obtain ⟨rfl, _⟩ := h
      exact Or.inl rfl
    · simp at h
  | closeResolve pick =>
    obtain ⟨_, _, _, _, h4, _⟩ := closeResolve_cases cfg s s1 pick o h
    exact Or.inl h4
  | closeReplay ctx =>
    simp only [step] at h
    split at h
    · simp only [Option.some.injEq, Prod.mk.injEq] at h
      rw [← h.1]; exact Or.inl rfl
    · simp at h

/-- Along a run from a reachable state a stored session is kept, and so are `mongoClient` and
`initDone` once `initDone` is closed. -/
theorem run_mongoClient_stable (cfg : Config) (s : Sys) (hs : Reachable cfg s)
    (es : List Event) (s1 : Sys) (os : List Output) (h : run cfg s es = some (s1, os)) :
    (∀ m, s.c.mongoClient = some m → s1.c.mongoClient = some m) ∧
    (s.c.initDone.closed = true →
      s1.c.mongoClient = s.c.mongoClient ∧ s1.c.initDone = s.c.initDone) := by
  have hP := run_induction cfg
    (fun t => Reachable cfg t ∧ (∀ m, s.c.mongoClient = some m → t.c.mongoClient = some m) ∧
      (s.c.initDone.closed = true →
        t.c.mongoClient = s.c.mongoClient ∧ t.c.initDone = s.c.initDone))
    (by
      intro t e t1 o ⟨ht, h1, h2⟩ hst
      have hi := loopInv_reachable cfg t ht
      refine ⟨reachable_step cfg t t1 e o ht hst, ?_, ?_⟩
      · intro m hm
        rcases step_mongoClient cfg t t1 e o hst with h3 | ⟨_, hpc⟩
        · rw [h3]; exact h1 m hm
        · have := hi.pending (Or.inl hpc)
          rw [h1 m hm] at this
          simp at this
      · intro hc
        obtain ⟨h3, h4⟩ := h2 hc
        have hfin : t.pc = LoopPc.finished := by
          by_contra hne
          have := hi.unfired hne
          rw [h4] at this
          simp [Chan.closed, this] at hc
        rcases step_mongoClient cfg t t1 e o hst with h5 | ⟨_, hpc⟩
        · rcases step_initDone cfg t t1 e o hst with h6 | ⟨_, hpc⟩
          · exact ⟨h5.trans h3, h6.trans h4⟩
          · rw [hfin] at hpc; simp at hpc
        · rw [hfin] at hpc; simp at hpc)
    es s s1 os ⟨hs, fun _ h => h, fun _ => ⟨rfl, rfl⟩⟩ h
  exact hP.2

/-- A context that has ended carries an error. -/
theorem context_err_of_done (ctx : Context) (now : Nat) (h : ctx.done now = true) :
    ctx.Err now ≠ none := by
  unfold Context.done at h
  unfold Context.Err
  split at h
  · simp at h
  · simp only [decide_eq_true_eq] at h
    simp [h]

/-- A call of `Close` that returns leaves a reachable state with `stopOnce` done, and returns
`stopError`. -/
theorem close_returns (cfg : Config) (s s1 : Sys) (ctx : Context) (env : CloseEnv)
    (e : Option GoError) (hs : Reachable cfg s) (h : Close cfg s ctx env = some (s1, e)) :
    Reachable cfg s1 ∧ s1.c.stopOnce = true ∧ e = s1.c.stopError := by
  cases hd : s.c.stopOnce with
  | true =>
    rw [close_done cfg s ctx env hd] at h
    simp only [Option.some.injEq, Prod.mk.injEq] at h
    obtain ⟨rfl, rfl⟩ := h
    exact ⟨hs, hd, rfl⟩
  | false =>
    obtain ⟨sa, sb, osb, o, h1, _, _, h2, h3, h4⟩ := close_first cfg s s1 ctx env e hd h
    have hr := reachable_step cfg sb s1 _ o
      (reachable_run cfg sa sb _ osb (reachable_step cfg s sa _ _ hs h1) h2) h3
    obtain ⟨_, _, _, _, _, _, h5, _⟩ := closeResolve_cases cfg sb s1 env.pick o h3
    exact ⟨hr, h5, h4⟩

/-- For a first call of `Close` that returns with its context not ended at the instant its
`select` proceeds (so that the `initDone` case is the only one ready): with `mongoClient`
nil it returns nil and no call of `Disconnect` has been made; with `mongoClient` a session
`m`, the one call of `Disconnect` made is on `m` with the context of the call, and `Close`
returns what that call returned.  In every reachable state each call of `Disconnect` made
had a non-nil receiver. -/
theorem close_disconnect_of_open_context (cfg : Config) (s : Sys) (hs : Reachable cfg s)
    (ctx : Context) (env : CloseEnv) (s1 : Sys) (e : Option GoError)
    (hfirst : s.c.stopOnce = false) (h : Close cfg s ctx env = some (s1, e))
    (hctx : ctx.done s1.now = false) :
    s1.c.initDone.closed = true ∧
    (s1.c.mongoClient = none → e = none ∧ s1.disconnects = []) ∧
    (∀ m, s1.c.mongoClient = some m →
      s1.disconnects = [(some m, ctx)] ∧ e = cfg.Disconnect m ctx) ∧
    ∀ t, Reachable cfg t → ∀ call, call ∈ t.disconnects → call.1 ≠ none := by
  obtain ⟨sa, sb, osb, o, h1, hcl, hbg, h2, h3, h4⟩ := close_first cfg s s1 ctx env e hfirst h
  have hfresh := ((closeInv_reachable cfg s hs).fresh hfirst).1
  have hsa : sa.disconnects = [] := by
    simp only [step] at h1
    split at h1
    · simp only [Option.some.injEq, Prod.mk.injEq] at h1
      rw [← h1.1]; exact hfresh
    · simp at h1
  obtain ⟨c1, _, _, c4, _⟩ := run_background cfg env.during sa sb osb hbg h2
  obtain ⟨ctx0, d1, d2, d3, d4, _, _, _, _, d9⟩ := closeResolve_cases cfg sb s1 env.pick o h3
  have hctx0 : ctx0 = ctx := by
    rw [c1, hcl] at d1
    exact (Option.some.inj d1).symm
  subst hctx0
  rw [d2] at hctx
  have hsb : sb.disconnects = [] := c4.trans hsa
  refine ⟨?_, ?_, ?_, ?_⟩
  · rcases d9 with ⟨x, _⟩ | ⟨x, _⟩ | ⟨m, x, _⟩
    · rw [hctx] at x; simp at x
    · rw [d4]; exact x
    · rw [d4]; exact x
  · intro hnil
    rcases d9 with ⟨x, _⟩ | ⟨_, _, y, z⟩ | ⟨m, _, x, _⟩
    · rw [hctx] at x; simp at x
    · exact ⟨h4.trans y, z.trans hsb⟩
    · rw [d3, x] at hnil; simp at hnil
  · intro m hm
    rcases d9 with ⟨x, _⟩ | ⟨_, x, _⟩ | ⟨m1, _, x, y, z⟩
    · rw [hctx] at x; simp at x
    · rw [d3, x] at hm; simp at hm
    · rw [d3, x] at hm
      have : m1 = m := Option.some.inj hm
      subst this
      exact ⟨by rw [z, hsb]; rfl, h4.trans y⟩
  · intro t ht
    exact (closeInv_reachable cfg t ht).receiver

/-- The second half of the first `Close` call, by the case its `select` takes. -/
theorem closeResolve_select (cfg : Config) (s s1 : Sys) (pick : Case) (o : Output)
    (h : step cfg s (Event.closeResolve pick) = some (s1, o)) :
    ∃ ctx, s.closing = some ctx ∧
      ((select2 s.c.initDone.closed (ctx.done s.now) pick = some Case.first ∧
          (s.c.mongoClient = none → s1.c.stopError = none ∧ s1.disconnects = s.disconnects) ∧
          ∀ m, s.c.mongoClient = some m → s1.c.stopError = cfg.Disconnect m ctx ∧
            s1.disconnects = s.disconnects ++ [(some m, ctx)]) ∨
       (select2 s.c.initDone.closed (ctx.done s.now) pick = some Case.second ∧
          s1.c.stopError = ctx.Err s.now ∧ s1.disconnects = s.disconnects)) := by
  simp only [step] at h
  split at h
  · simp at h
  · rename_i ctx hcl
    refine ⟨ctx, hcl, ?_⟩
    split at h
    · simp at h
    · rename_i hs
      simp only [Option.some.injEq, Prod.mk.injEq] at h
      obtain ⟨rfl, rfl⟩ := h
      exact Or.inr ⟨hs, rfl, rfl⟩
    · rename_i hs
      refine Or.inl ⟨hs, ?_, ?_⟩
      · intro hm
        simp only [hm, Option.some.injEq, Prod.mk.injEq] at h
        obtain ⟨rfl, rfl⟩ := h
        exact ⟨rfl, rfl⟩
      · intro m hm
        simp only [hm, Option.some.injEq, Prod.mk.injEq] at h
        obtain ⟨rfl, rfl⟩ := h
        exact ⟨rfl, by simp [hm]⟩

/-- On `flakyConfig` the first two attempts fail. -/
theorem flakyConfig_fails (i : Nat) (h : i < 2) : connectError flakyConfig i ≠ none := by
  interval_cases i <;> decide

/-- The state `afterFirstFailure` is reached by the first attempt. -/
theorem reachable_afterFirstFailure : Reachable downConfig afterFirstFailure :=
  ⟨[Event.loopConnect], [Output.silent], by decide⟩

/-- The state `afterThirdFailure` is reached by three attempts and two waits. -/
theorem reachable_afterThirdFailure : Reachable downConfig afterThirdFailure :=
  ⟨retrySchedule 2 NewClient.waitingTime ++ [Event.loopConnect], _, by rfl⟩

/-- The state `abortedState` is reached by a `Close` answered by the goroutine. -/
theorem reachable_abortedState : Reachable downConfig abortedState :=
  ⟨[Event.loopConnect, Event.closeEnter (timeoutOneSecond 0), Event.tick 1000,
    Event.loopSelect Case.first, Event.loopCloseInitDone, Event.closeResolve Case.second],
    _, by rfl⟩

/-- The state `readyState` is reached by `successSchedule 2`. -/
theorem reachable_readyState : Reachable flakyConfig readyState :=
  ⟨successSchedule 2, _, by rfl⟩

/-- A `Close` in `readyState` disconnects session 7 and returns the error of `Disconnect`. -/
theorem close_readyState :
    Close flakyConfig readyState Context.background ⟨[], Case.first⟩ =
      some (closedState, some (GoError.external 2)) := by
  decide

/-! ## The claims on the connection manager -/

/-- C1. In every state in which the goroutine of `NewClient` waits after its `k`-th
attempt, all `k` attempts having failed, the local `waitingTime` handed to `time.After` is
`min(3 * 2^(k-1), 300)` seconds, the timer case can proceed exactly from that many
nanoseconds after the `select` was entered, and doubling `waitingTime` stays within
`int64`; such a state is reached for every `k ≥ 1` whose first `k` attempts fail.  The two
constants are computed without overflow as well. -/
theorem C1_backoff_schedule (cfg : Config) (k : Nat) (hk : 1 ≤ k)
    (hfail : ∀ i, i < k → connectError cfg i ≠ none) :
    (∃ s, Reachable cfg s ∧ s.pc = LoopPc.waiting ∧ s.attempts = k) ∧
    (∀ s, Reachable cfg s → s.pc = LoopPc.waiting → s.attempts = k →
      s.waitingTime = min (3 * 2 ^ (k - 1)) 300 * Second ∧
      (timerReady s = true ↔
        s.selectAt + min (3 * 2 ^ (k - 1)) 300 * 1000000000 ≤ s.now) ∧
      wrapInt64 (s.waitingTime * 2) = s.waitingTime * 2) ∧
    NewClient.waitingTime = 3 * Second ∧ maxTime = 5 * Minute := by
  refine ⟨?_, ?_, by decide, by decide⟩
  · obtain ⟨s1, os, hrun, hp, ha, _, _, _⟩ :=
      run_retrySchedule cfg (k - 1) NewClient rfl
        (by intro i hi; apply hfail; simp only [NewClient]; omega)
    have ha1 : s1.attempts = k - 1 := by simpa [NewClient] using ha
    have hst := step_loopConnect_fail cfg s1 hp (by rw [ha1]; exact hfail _ (by omega))
    refine ⟨_, reachable_step cfg s1 _ _ _
      (reachable_run cfg _ _ _ _ (reachable_newClient cfg) hrun) hst, rfl, ?_⟩
    simp only [ha1]
    omega
  · intro s hs hpc ha
    have hw := (loopInv_reachable cfg s hs).waitWaiting hpc
    rw [ha] at hw
    have hb := backoffNanos_bounds k
    refine ⟨hw, ?_, ?_⟩
    · simp only [timerReady, hw, backoffNanos_toNat, decide_eq_true_eq]
    · rw [hw]
      exact wrapInt64_of_range _ (by omega) (by omega)

/-- C1 at a concrete input: on the endpoint with an empty URL, the wait after the third
failed attempt is 12 seconds. -/
theorem C1_backoff_schedule_witness :
    (1 ≤ 3 ∧ ∀ i, i < 3 → connectError downConfig i ≠ none) ∧
    Reachable downConfig afterThirdFailure ∧
    afterThirdFailure.waitingTime = min (3 * 2 ^ (3 - 1)) 300 * Second ∧
    (timerReady afterThirdFailure = true ↔
      afterThirdFailure.selectAt + min (3 * 2 ^ (3 - 1)) 300 * 1000000000 ≤
        afterThirdFailure.now) ∧
    wrapInt64 (afterThirdFailure.waitingTime * 2) = afterThirdFailure.waitingTime * 2 :=
  ⟨⟨by decide, fun i _ => downConfig_fails i⟩, reachable_afterThirdFailure,
    (C1_backoff_schedule downConfig 3 (by decide) (fun i _ => downConfig_fails i)).2.1
      afterThirdFailure reachable_afterThirdFailure rfl rfl⟩

/-- C2. When the first `N` calls of `connect` fail and the next one stores session `m`:
the goroutine run on its own makes its `N + 1` attempts and ends with `m` in `mongoClient`
and `initDone` closed once; and in every state reached while `stopInit` is not closed, at
most `N + 1` attempts have been made, `mongoClient` is nil up to the `N`-th and `m` from
the `N + 1`-th, `initDone` has been closed at most once and only with all `N + 1` attempts
made and `m` stored, once the goroutine has ended no step of it is left, and the goroutine
and the clock can always carry on to that end: `N + 1` attempts made, `m` stored,
`initDone` closed once. -/
theorem C2_ready_after_failures (cfg : Config) (N : Nat) (m : Session)
    (hfail : ∀ i, i < N → connectError cfg i ≠ none)
    (hok : connectError cfg N = none) (hm : connectSession cfg N = some m) :
    (∃ s os, run cfg NewClient (successSchedule N) = some (s, os) ∧
      s.pc = LoopPc.finished ∧ s.attempts = N + 1 ∧ s.c.mongoClient = some m ∧
      s.c.initDone.closes = 1 ∧ s.c.stopInit.closes = 0) ∧
    ∀ s, Reachable cfg s → s.c.stopInit.closes = 0 →
      (s.attempts ≤ N + 1 ∧
       (s.attempts ≤ N → s.c.mongoClient = none) ∧
       (s.attempts = N + 1 → s.c.mongoClient = some m) ∧
       s.c.initDone.closes ≤ 1 ∧
       (s.c.initDone.closes = 1 → s.attempts = N + 1 ∧ s.c.mongoClient = some m) ∧
       (s.pc = LoopPc.finished → s.c.initDone.closes = 1 ∧
         step cfg s Event.loopConnect = none ∧ step cfg s Event.loopCloseInitDone = none ∧
         ∀ pick, step cfg s (Event.loopSelect pick) = none)) ∧
      ∃ es s1 os, es.all Event.isBackground = true ∧ run cfg s es = some (s1, os) ∧
        s1.pc = LoopPc.finished ∧ s1.attempts = N + 1 ∧ s1.c.mongoClient = some m ∧
        s1.c.initDone.closes = 1 := by
  refine ⟨run_successSchedule cfg N m hfail hok hm, ?_⟩
  intro s hs hstop
  refine ⟨ready_safety cfg N m hfail hok hm s hs hstop, ?_⟩
  obtain ⟨es, s1, os, hb, hrun, hfin⟩ := loop_progress cfg N hfail hok s hs
  have hr := reachable_run cfg s s1 es os hs hrun
  have hst : s1.c.stopInit.closes = 0 := by
    rw [(run_background cfg es s s1 os hb hrun).2.2.2.2]; exact hstop
  obtain ⟨_, _, _, _, h5, h6⟩ := ready_safety cfg N m hfail hok hm s1 hr hst
  have hc := (h6 hfin).1
  exact ⟨es, s1, os, hb, hrun, hfin, (h5 hc).1, (h5 hc).2, hc⟩

/-- C2 at a concrete input: the driver fails twice and then hands out session 7. -/
theorem C2_ready_after_failures_witness :
    ((∀ i, i < 2 → connectError flakyConfig i ≠ none) ∧
      connectError flakyConfig 2 = none ∧ connectSession flakyConfig 2 = some 7) ∧
    (∃ s os, run flakyConfig NewClient (successSchedule 2) = some (s, os) ∧
      s.pc = LoopPc.finished ∧ s.attempts = 2 + 1 ∧ s.c.mongoClient = some 7 ∧
      s.c.initDone.closes = 1 ∧ s.c.stopInit.closes = 0) ∧
    readyState.attempts ≤ 2 + 1 ∧
    (readyState.attempts = 2 + 1 → readyState.c.mongoClient = some 7) :=
  ⟨⟨flakyConfig_fails, by decide, by decide⟩,
    (C2_ready_after_failures flakyConfig 2 7 flakyConfig_fails (by decide) (by decide)).1,
    ((C2_ready_after_failures flakyConfig 2 7 flakyConfig_fails (by decide) (by decide)).2
      readyState reachable_readyState rfl).1.1,
    ((C2_ready_after_failures flakyConfig 2 7 flakyConfig_fails (by decide) (by decide)).2
      readyState reachable_readyState rfl).1.2.2.1⟩

/-- C3. After a call of `Close` has returned `e1`: `stopInit` has been closed exactly once
and `Disconnect` called at most once; and however the manager goes on, every call of
`Close` returns, returns `e1` and leaves the state as it found it, every `Close` return
along the way is `e1`, `stopInit` still has its one `close` and the calls of `Disconnect`
are those already made. -/
theorem C3_close_idempotent (cfg : Config) (s : Sys) (hs : Reachable cfg s)
    (ctx1 : Context) (env1 : CloseEnv) (s1 : Sys) (e1 : Option GoError)
    (h1 : Close cfg s ctx1 env1 = some (s1, e1)) :
    s1.c.stopInit.closes = 1 ∧ s1.disconnects.length ≤ 1 ∧
    (∀ ctx2 env2, Close cfg s1 ctx2 env2 = some (s1, e1)) ∧
    ∀ es s2 os, run cfg s1 es = some (s2, os) →
      (∀ ctx2 env2, Close cfg s2 ctx2 env2 = some (s2, e1)) ∧
      (∀ err, Output.closeRet err ∈ os → err = e1) ∧
      s2.c.stopInit.closes = 1 ∧ s2.disconnects = s1.disconnects := by
  obtain ⟨hr, hd, he⟩ := close_returns cfg s s1 ctx1 env1 e1 hs h1
  have hi := closeInv_reachable cfg s1 hr
  have hc := hi.exclusive hd
  have hcount : s1.c.stopInit.closes = 1 := by
    have := hi.stopCount
    simpa [hd] using this
  refine ⟨hcount, hi.atMostOne, ?_, ?_⟩
  · intro ctx2 env2
    rw [close_done cfg s1 ctx2 env2 hd, he]
  · intro es s2 os hrun
    obtain ⟨a1, _, a3, a4, a5, a6⟩ := run_after_done cfg es s1 s2 os hd hc hrun
    refine ⟨?_, ?_, ?_, a4⟩
    · intro ctx2 env2
      rw [close_done cfg s2 ctx2 env2 a1, a3, he]
    · intro err hmem
      rw [he]; exact a6 err hmem
    · rw [a5]; exact hcount

/-- C3 at a concrete input: a first `Close` on the connected manager returns the error of
`Disconnect`, and so does a second one with another context. -/
theorem C3_close_idempotent_witness :
    Reachable flakyConfig readyState ∧
    Close flakyConfig readyState Context.background ⟨[], Case.first⟩ =
      some (closedState, some (GoError.external 2)) ∧
    closedState.c.stopInit.closes = 1 ∧ closedState.disconnects.length ≤ 1 ∧
    Close flakyConfig closedState cancelledContext ⟨[], Case.second⟩ =
      some (closedState, some (GoError.external 2)) :=
  ⟨reachable_readyState, close_readyState,
    (C3_close_idempotent flakyConfig readyState reachable_readyState Context.background
      ⟨[], Case.first⟩ closedState _ close_readyState).1,
    (C3_close_idempotent flakyConfig readyState reachable_readyState Context.background
      ⟨[], Case.first⟩ closedState _ close_readyState).2.1,
    (C3_close_idempotent flakyConfig readyState reachable_readyState Context.background
      ⟨[], Case.first⟩ closedState _ close_readyState).2.2.1 cancelledContext
      ⟨[], Case.second⟩⟩

/-- C4, amended. On an endpoint whose every attempt fails, `mongoClient` is nil in every
reachable state, and a first call of `Close` that returns leaves it nil, calls no
`Disconnect`, and returns what the case taken by its `select` gives, at the instant the
`select` proceeds: nil for the `initDone` case, the error of its context, which is not nil,
for the `ctx.Done()` case.  The case taken is the one that is ready, and the runtime's draw
when both are; so the call returns nil whenever the context has not ended at that instant,
and the error of the context whenever `initDone` is still open at that instant.  When the
call is made while the goroutine waits between two attempts, with a context that has not
ended, and the goroutine takes the `stopInit` case and closes `initDone` with no time
passing, the call returns nil. -/
theorem C4_close_on_failing_endpoint (cfg : Config)
    (hfail : ∀ i, connectError cfg i ≠ none) (s : Sys) (hs : Reachable cfg s) :
    s.c.mongoClient = none ∧
    (∀ ctx env s1 e, s.c.stopOnce = false → Close cfg s ctx env = some (s1, e) →
      s1.c.mongoClient = none ∧ s1.disconnects = [] ∧
      ((select2 s1.c.initDone.closed (ctx.done s1.now) env.pick = some Case.first ∧
          e = none) ∨
       (select2 s1.c.initDone.closed (ctx.done s1.now) env.pick = some Case.second ∧
          e = ctx.Err s1.now ∧ e ≠ none)) ∧
      (e = none ∨ e = ctx.Err s1.now) ∧
      (ctx.done s1.now = false → e = none) ∧
      (s1.c.initDone.closed = false → e = ctx.Err s1.now ∧ e ≠ none)) ∧
    (s.pc = LoopPc.waiting → s.c.stopOnce = false → s.closing = none →
      ∀ ctx pick, ctx.done s.now = false →
        (Close cfg s ctx
          ⟨[Event.loopSelect Case.first, Event.loopCloseInitDone], pick⟩).map Prod.snd =
          some none) := by
  have hnil : ∀ t, Reachable cfg t → t.c.mongoClient = none := by
    intro t ht
    cases hmc : t.c.mongoClient with
    | none => rfl
    | some m =>
      obtain ⟨_, _, h3, _⟩ := (loopInv_reachable cfg t ht).stored m hmc
      exact absurd h3 (hfail _)
  refine ⟨hnil s hs, ?_, ?_⟩
  · intro ctx env s1 e hfirst h
    obtain ⟨hr, _, _⟩ := close_returns cfg s s1 ctx env e hs h
    obtain ⟨sa, sb, osb, o, h1, hcl, hbg, h2, h3, h4⟩ :=
      close_first cfg s s1 ctx env e hfirst h
    have hfresh := ((closeInv_reachable cfg s hs).fresh hfirst).1
    have hsa : sa.disconnects = [] := by
      simp only [step] at h1
      split at h1
      · simp only [Option.some.injEq, Prod.mk.injEq] at h1
        rw [← h1.1]; exact hfresh
      · simp at h1
    obtain ⟨c1, _, _, c4, _⟩ := run_background cfg env.during sa sb osb hbg h2
    obtain ⟨ctx0, d1, d2, d3, d4, _, _, _, _, _⟩ :=
      closeResolve_cases cfg sb s1 env.pick o h3
    obtain ⟨ctx1, e1, e2⟩ := closeResolve_select cfg sb s1 env.pick o h3
    have hctx0 : ctx0 = ctx := by
      rw [c1, hcl] at d1
      exact (Option.some.inj d1).symm
    have hctx1 : ctx1 = ctx := by
      rw [c1, hcl] at e1
      exact (Option.some.inj e1).symm
    subst hctx0
    subst hctx1
    have hsb : sb.disconnects = [] := c4.trans hsa
    have hm1 := hnil s1 hr
    have hmb : sb.c.mongoClient = none := by rw [← d3]; exact hm1
    have hsel : ∀ a b c, select2 a b env.pick = some c →
        (c = Case.first → a = true) ∧ (c = Case.second → b = true) := by
      intro a b c hc
      cases a <;> cases b <;> simp [select2] at hc <;> simp [← hc]
    rw [d2, d4]
    rcases e2 with ⟨x, y, _⟩ | ⟨x, y, z⟩
    · have hy := y hmb
      have hrdy := (hsel _ _ _ x).1 rfl
      refine ⟨hm1, hy.2.trans hsb, Or.inl ⟨x, h4.trans hy.1⟩, Or.inl (h4.trans hy.1),
        fun _ => h4.trans hy.1, ?_⟩
      intro hno; rw [hrdy] at hno; simp at hno
    · have hrdy := (hsel _ _ _ x).2 rfl
      have hne : e ≠ none := by
        rw [h4, y]; exact context_err_of_done _ sb.now hrdy
      refine ⟨hm1, z.trans hsb, Or.inr ⟨x, h4.trans y, hne⟩, Or.inr (h4.trans y), ?_,
        fun _ => ⟨h4.trans y, hne⟩⟩
      intro hnd; rw [hrdy] at hnd; simp at hnd
  · intro hpc hfirst hcl ctx pick hctx
    have hli := loopInv_reachable cfg s hs
    have h0 := hli.unfired (by rw [hpc]; decide)
    have hm := hnil s hs
    have hsel1 : ∀ b, select2 true b Case.first = some Case.first := by
      intro b; cases b <;> rfl
    have hsel2 : ∀ p, select2 true false p = some Case.first := by
      intro p; rfl
    simp [Close, hfirst, Event.isBackground, run, step, hcl, hpc, timerReady, Chan.close,
      Chan.closed, hsel1, hsel2, h0, hctx, hm]

/-- C4, amended, at a concrete input: the endpoint with an empty URL, after its first
failed attempt.  The goroutine answers at once and `Close` returns nil; and when the
`select` of `Close` proceeds only a second later, `initDone` closed and the context ended,
the draw of `ctx.Done()` makes it return the deadline error. -/
theorem C4_close_on_failing_endpoint_witness :
    (∀ i, connectError downConfig i ≠ none) ∧ Reachable downConfig afterFirstFailure ∧
    afterFirstFailure.c.mongoClient = none ∧
    (Close downConfig afterFirstFailure (timeoutOneSecond 0)
      ⟨[Event.loopSelect Case.first, Event.loopCloseInitDone], Case.second⟩).map Prod.snd =
        some none ∧
    (Close downConfig afterFirstFailure (timeoutOneSecond 0)
      ⟨[Event.loopSelect Case.first, Event.loopCloseInitDone, Event.tick 1000000000],
        Case.second⟩).map (fun r => (r.1.c.initDone.closed, r.2)) =
        some (true, some GoError.deadlineExceeded) :=
  ⟨downConfig_fails, reachable_afterFirstFailure,
    (C4_close_on_failing_endpoint downConfig downConfig_fails afterFirstFailure
      reachable_afterFirstFailure).1,
    (C4_close_on_failing_endpoint downConfig downConfig_fails afterFirstFailure
      reachable_afterFirstFailure).2.2 rfl rfl rfl (timeoutOneSecond 0) Case.second rfl,
    by decide⟩

/-- C4, as stated, fails.  On the endpoint with an empty URL every attempt fails.  The first
attempt has failed and the goroutine waits; `Close` is called with a context that ends one
second later; a microsecond after, the goroutine takes the `stopInit` case and closes
`initDone`; the `select` of `Close` takes the `initDone` case.  `Close` returns nil, not
the deadline error of its context. -/
theorem C4_counterexample :
    (∀ i, connectError downConfig i ≠ none) ∧
    run downConfig NewClient [Event.loopConnect] = some (afterFirstFailure, [Output.silent]) ∧
    afterFirstFailure.c.stopOnce = false ∧ afterFirstFailure.c.mongoClient = none ∧
    (timeoutOneSecond afterFirstFailure.now).ends =
      some (afterFirstFailure.now + 1000000000, GoError.deadlineExceeded) ∧
    Close downConfig afterFirstFailure (timeoutOneSecond afterFirstFailure.now)
      ⟨[Event.tick 1000, Event.loopSelect Case.first, Event.loopCloseInitDone],
        Case.second⟩ = some (abortedState, none) ∧
    (none : Option GoError) ≠ some GoError.deadlineExceeded :=
  ⟨downConfig_fails, by decide, rfl, rfl, rfl, by decide, by simp⟩

/-- C5, the defect.  Session 7 is stored and `initDone` is closed at 9 s; the deadline of
the context passes at 10 s; the first `Close` is called at 11 s.  Both cases of its
`select` are ready.  When the runtime draws `ctx.Done()`, `Close` returns the deadline
error, `Disconnect` is not called although `mongoClient` is not nil, and as `stopOnce` is
now done a later `Close` with `context.Background()` returns the same error and calls no
`Disconnect` either; when it draws `initDone`, `Disconnect` is called on session 7 and its
error returned, as the claim says.  The same happens for a `Close` called at 9 s with a
context that ends while the call is on its way to the `select`. -/
theorem C5_close_skips_disconnect :
    Reachable flakyConfig lateReadyState ∧
    lateReadyState.c.stopOnce = false ∧ lateReadyState.c.mongoClient = some 7 ∧
    run flakyConfig NewClient (successSchedule 2) =
      some (readyState, List.replicate 8 Output.silent) ∧
    readyState.c.initDone.closed = true ∧ expiredContext.done readyState.now = false ∧
    Close flakyConfig lateReadyState expiredContext ⟨[], Case.second⟩ =
      some (skippedState, some GoError.deadlineExceeded) ∧
    skippedState.disconnects = [] ∧ skippedState.c.mongoClient = some 7 ∧
    Close flakyConfig skippedState Context.background ⟨[], Case.first⟩ =
      some (skippedState, some GoError.deadlineExceeded) ∧
    (Close flakyConfig lateReadyState expiredContext ⟨[], Case.first⟩).map
        (fun r => (r.1.disconnects, r.2)) =
      some ([(some 7, expiredContext)], flakyConfig.Disconnect 7 expiredContext) ∧
    shortContext.done readyState.now = false ∧
    (Close flakyConfig readyState shortContext ⟨[Event.tick 5], Case.second⟩).map
        (fun r => (r.1.c.mongoClient, r.1.disconnects, r.2)) =
      some (some 7, [], some GoError.canceled) := by
  refine ⟨⟨successSchedule 2 ++ [Event.tick 2000000000], _, by rfl⟩, rfl, rfl, by rfl, rfl,
    rfl, by decide, rfl, rfl, by decide, by decide, rfl, by decide⟩

/-- C6. With `initDone` closed, `mongoClient` nil and the context not ended, `GetCollection`
proceeds at once whatever the runtime draws, returns a nil collection and
`ErrClientNotConnected`, and leaves the whole state, the count of connect attempts
included, as it was. -/
theorem C6_getCollection_not_connected (cfg : Config) (s : Sys) (ctx : Context)
    (dbName collectionName : String) (pick : Case)
    (hfired : s.c.initDone.closed = true) (hnil : s.c.mongoClient = none)
    (hctx : ctx.done s.now = false) :
    GetCollection cfg s ctx dbName collectionName pick =
      some (s, (none, some GoError.clientNotConnected)) ∧
    step cfg s (Event.getCollection ctx dbName collectionName pick) =
      some (s, Output.collection (none, some GoError.clientNotConnected)) := by
  have h : GetCollection cfg s ctx dbName collectionName pick =
      some (s, (none, some GoError.clientNotConnected)) := by
    simp [GetCollection, hfired, hctx, hnil, select2]
  exact ⟨h, getCollection_step cfg s ctx dbName collectionName pick _ h⟩

/-- C6 at a concrete input: the manager whose goroutine was stopped before any success. -/
theorem C6_getCollection_not_connected_witness :
    (Reachable downConfig abortedState ∧ abortedState.c.initDone.closed = true ∧
      abortedState.c.mongoClient = none ∧
      Context.background.done abortedState.now = false) ∧
    GetCollection downConfig abortedState Context.background "config" "users" Case.second =
      some (abortedState, (none, some GoError.clientNotConnected)) :=
  ⟨⟨reachable_abortedState, rfl, rfl, rfl⟩,
    (C6_getCollection_not_connected downConfig abortedState Context.background "config"
      "users" Case.second rfl rfl rfl).1⟩

/-- C7. With `initDone` not closed and the context ended, `GetCollection` returns a nil
collection and the error `ctx.Err()`, which is not nil, and leaves every field of the
manager as it was: whatever steps follow the call reach the state and yield the outputs
they would have without it. -/
theorem C7_getCollection_cancelled (cfg : Config) (s : Sys) (ctx : Context)
    (dbName collectionName : String) (pick : Case)
    (hopen : s.c.initDone.closed = false) (hctx : ctx.done s.now = true) :
    GetCollection cfg s ctx dbName collectionName pick = some (s, (none, ctx.Err s.now)) ∧
    ctx.Err s.now ≠ none ∧
    ∀ es, run cfg s (Event.getCollection ctx dbName collectionName pick :: es) =
      (run cfg s es).map (fun r => (r.1, Output.collection (none, ctx.Err s.now) :: r.2)) := by
  have h : GetCollection cfg s ctx dbName collectionName pick =
      some (s, (none, ctx.Err s.now)) := by
    simp [GetCollection, hopen, hctx, select2]
  refine ⟨h, context_err_of_done ctx s.now hctx, ?_⟩
  intro es
  simp only [run, getCollection_step cfg s ctx dbName collectionName pick _ h]
  cases run cfg s es with
  | none => rfl
  | some r => rfl

/-- C7 at a concrete input: a cancelled context on a manager that has just been made. -/
theorem C7_getCollection_cancelled_witness :
    (NewClient.c.initDone.closed = false ∧ cancelledContext.done NewClient.now = true) ∧
    GetCollection flakyConfig NewClient cancelledContext "config" "users" Case.first =
      some (NewClient, (none, cancelledContext.Err NewClient.now)) ∧
    cancelledContext.Err NewClient.now = some GoError.canceled :=
  ⟨⟨rfl, rfl⟩,
    (C7_getCollection_cancelled flakyConfig NewClient cancelledContext "config" "users"
      Case.first rfl rfl).1, rfl⟩

/-- C8. In every reachable state: `mongoClient` is nil as long as every attempt made so far
has failed; `initDone` has been closed at most once; the only step that changes `initDone`
is the goroutine's `close(ret.initDone)`, taken when the channel is still open; and along
every continuation a non-nil `mongoClient` keeps its value, and once `initDone` is closed
both `mongoClient` and `initDone` stay as they are. -/
theorem C8_session_handle_final (cfg : Config) (s : Sys) (hs : Reachable cfg s) :
    ((∀ i, i < s.attempts → connectError cfg i ≠ none) → s.c.mongoClient = none) ∧
    s.c.initDone.closes ≤ 1 ∧
    (∀ e s1 o, step cfg s e = some (s1, o) → s1.c.initDone ≠ s.c.initDone →
      e = Event.loopCloseInitDone ∧ s.c.initDone.closes = 0 ∧ s1.c.initDone.closes = 1) ∧
    (∀ es s1 os, run cfg s es = some (s1, os) →
      (∀ m, s.c.mongoClient = some m → s1.c.mongoClient = some m) ∧
      (s.c.initDone.closed = true →
        s1.c.mongoClient = s.c.mongoClient ∧ s1.c.initDone = s.c.initDone)) := by
  have hi := loopInv_reachable cfg s hs
  refine ⟨?_, ?_, ?_, ?_⟩
  · intro hall
    cases hmc : s.c.mongoClient with
    | none => rfl
    | some m =>
      obtain ⟨h1, _, h3, _⟩ := hi.stored m hmc
      exact absurd h3 (hall _ (by omega))
  · by_cases hpc : s.pc = LoopPc.finished
    · rw [hi.fired hpc]
    · rw [hi.unfired hpc]; omega
  · intro e s1 o hst hne
    rcases step_initDone cfg s s1 e o hst with h1 | ⟨h1, hpc⟩
    · exact absurd h1 hne
    · have h0 := hi.unfired (by rw [hpc]; decide)
      have hi1 := loopInv_step cfg s s1 e o hi hst
      subst h1
      simp only [step, hpc, if_true, Option.some.injEq, Prod.mk.injEq] at hst
      obtain ⟨rfl, _⟩ := hst
      exact ⟨rfl, h0, by simp [Chan.close, h0]⟩
  · intro es s1 os h
    exact run_mongoClient_stable cfg s hs es s1 os h

/-- C8 at a concrete input: the connected manager keeps session 7 through a `Close`. -/
theorem C8_session_handle_final_witness :
    Reachable flakyConfig readyState ∧ readyState.c.initDone.closes ≤ 1 ∧
    (readyState.c.initDone.closed = true →
      closedState.c.mongoClient = readyState.c.mongoClient ∧
      closedState.c.initDone = readyState.c.initDone) :=
  ⟨reachable_readyState,
    (C8_session_handle_final flakyConfig readyState reachable_readyState).2.1,
    ((C8_session_handle_final flakyConfig readyState reachable_readyState).2.2.2
      [Event.closeEnter Context.background, Event.closeResolve Case.first] closedState
      [Output.silent, Output.closeRet (some (GoError.external 2))] (by decide)).2⟩

end mongoutil

/-! ## Theorems: prometrics -/

namespace prometrics

open Go

/-- With `StartServer` never called and a context that has ended, `Shutdown` returns
`ErrNotStarted` and changes nothing. -/
theorem shutdown_zero_of_done (srvShutdown : Server → Context → Option GoError)
    (ctx : Context) (now : Nat) (pick : Case) (h : ctx.done now = true) :
    Shutdown srvShutdown Vars.zero ctx now pick =
      Outcome.returns (Vars.zero, some GoError.notStarted) := by
  simp [Shutdown, Vars.zero, recvReady, h, select2]

/-- With `StartServer` never called and a context that has not ended, `Shutdown` cannot
proceed. -/
theorem shutdown_zero_of_not_done (srvShutdown : Server → Context → Option GoError)
    (ctx : Context) (now : Nat) (pick : Case) (h : ctx.done now = false) :
    Shutdown srvShutdown Vars.zero ctx now pick = Outcome.blocks := by
  simp [Shutdown, Vars.zero, recvReady, h, select2]

/-- C9, the defect.  With `StartServer` never called the variable `started` is a nil
channel; called with `context.Background()`, `Shutdown` can proceed at no instant, whatever
the runtime draws: it never returns `ErrNotStarted`. -/
theorem C9_shutdown_blocks_forever (srvShutdown : Server → Context → Option GoError)
    (now : Nat) (pick : Case) :
    Vars.zero.started = none ∧
    Shutdown srvShutdown Vars.zero Context.background now pick = Outcome.blocks :=
  ⟨rfl, shutdown_zero_of_not_done srvShutdown Context.background now pick rfl⟩

end prometrics

/-! ## Theorems: logutil -/

namespace logutil

/-- On a frame of a package named `logutil` with `hasNext` set, the loop never returns. -/
theorem getMethodNameLoop_spins (f : Frame)
    (h : stringsHasPrefix ((stringsSplit f.Function '/').getLastD "") "logutil." = true)
    (fuel : Nat) : getMethodNameLoop f true fuel = none := by
  induction fuel with
  | zero => rfl
  | succ n ih =>
    unfold getMethodNameLoop
    simp only [if_true, h, not_true_eq_false, if_false, ih]
    split <;> rfl

/-- On a first frame outside `logutil` with `hasNext` set, the loop returns its short name. -/
theorem getMethodNameLoop_first (f : Frame) (fuel : Nat)
    (h0 : (stringsSplit f.Function '/').length ≠ 0)
    (h : stringsHasPrefix ((stringsSplit f.Function '/').getLastD "") "logutil." = false) :
    getMethodNameLoop f true (fuel + 1) = some ((stringsSplit f.Function '/').getLastD "") := by
  unfold getMethodNameLoop
  simp only [h0, h, if_true, if_false, Bool.false_eq_true, not_false_eq_true]

/-- With `hasNext` unset the loop body never runs and the empty string is returned. -/
theorem getMethodNameLoop_single (f : Frame) (fuel : Nat) :
    getMethodNameLoop f false (fuel + 1) = some "" := by
  unfold getMethodNameLoop
  simp

/-- C10, the defect.  When the first captured frame is a function of a package named
`logutil`, here a test of the package itself, `getMethodName` returns for no amount of fuel:
its `for` statement has no post statement and examines the same frame again and again.
The claim gives `testing.tRunner` for these frames. -/
theorem C10_getMethodName_spins (fuel : Nat) :
    getMethodName fuel callersFromLogutilTest = none ∧
    callingMethod callersFromLogutilTest = "testing.tRunner" := by
  refine ⟨?_, by decide⟩
  exact getMethodNameLoop_spins _ (by decide) fuel

/-- With a single captured frame `getMethodName` returns the empty string, where the words of
the claim give the frame's short name. -/
theorem getMethodName_single_frame :
    getMethodName 5 [⟨"main.main"⟩] = some "" ∧ callingMethod [⟨"main.main"⟩] = "main.main" := by
  decide

end logutil
